import Mathlib

/-!
Verification of the OTE object-detection task integration
(`mmdet/apis/ote/apis/detection/task.py`,
`mmdet/apis/ote/apis/config/configuration_manager.py`,
`mmdet/apis/ote/extension/datasets/mmdataset.py`).

The development shallowly embeds the configuration trees handled by
`mmcv.Config` / `ConfigDict`, the state of `MMObjectDetectionTask`, and the
operations the specification talks about.  Serialized text and pickled
model blobs are modelled as token lists with an executable encoder and
decoder; mutation of Python objects is modelled by explicit state passing.
-/

set_option maxHeartbeats 1000000

/-- A token of a serialized stream.  Strings produced by `Config.pretty_text`
and blobs produced by `torch.save` are modelled as lists of such tokens. -/
inductive CTok where
  | tn : Nat → CTok
  | ti : Int → CTok
  | tq : ℚ → CTok
  | ts : String → CTok
  deriving DecidableEq, Repr

/-- A label entity of the platform (`sc_sdk` label).  Only the `name`
attribute is read by the code under study. -/
structure MMLabel where
  name : String
  deriving DecidableEq, Repr

/-- Atomic (non-container) Python values stored in an mmdetection
configuration: numbers, strings, booleans, `None`, label entities,
dataset entities, and serialized-configuration text. -/
inductive CAtom where
  | aint : Int → CAtom
  | arat : ℚ → CAtom
  | astr : String → CAtom
  | abool : Bool → CAtom
  | anone : CAtom
  | albl : MMLabel → CAtom
  | adataset : Nat → CAtom
  | atext : List CTok → CAtom
  deriving DecidableEq, Repr

mutual
/-- A Python value inside an `mmcv` configuration: an atom, a list, or a
dict (`ConfigDict`). -/
inductive CTree where
  | atom : CAtom → CTree
  | lst : CList → CTree
  | node : CFields → CTree

/-- A Python list of configuration values. -/
inductive CList where
  | nil : CList
  | cons : CTree → CList → CList

/-- The ordered key/value entries of a Python dict. -/
inductive CFields where
  | nil : CFields
  | cons : String → CTree → CFields → CFields
end

mutual
def CTree.beq : CTree → CTree → Bool
  | .atom a, .atom b => a == b
  | .lst xs, .lst ys => CList.beq xs ys
  | .node fs, .node gs => CFields.beq fs gs
  | _, _ => false

def CList.beq : CList → CList → Bool
  | .nil, .nil => true
  | .cons x xs, .cons y ys => CTree.beq x y && CList.beq xs ys
  | _, _ => false

def CFields.beq : CFields → CFields → Bool
  | .nil, .nil => true
  | .cons k v fs, .cons l w gs => k == l && CTree.beq v w && CFields.beq fs gs
  | _, _ => false
end

mutual
theorem beqT_iff : ∀ a b : CTree, CTree.beq a b = true ↔ a = b
  | .atom a, .atom b => by simp [CTree.beq]
  | .atom _, .lst _ => by simp [CTree.beq]
  | .atom _, .node _ => by simp [CTree.beq]
  | .lst _, .atom _ => by simp [CTree.beq]
  | .lst xs, .lst ys => by simp [CTree.beq, beqL_iff xs ys]
  | .lst _, .node _ => by simp [CTree.beq]
  | .node _, .atom _ => by simp [CTree.beq]
  | .node _, .lst _ => by simp [CTree.beq]
  | .node fs, .node gs => by simp [CTree.beq, beqF_iff fs gs]

theorem beqL_iff : ∀ a b : CList, CList.beq a b = true ↔ a = b
  | .nil, .nil => by simp [CList.beq]
  | .nil, .cons _ _ => by simp [CList.beq]
  | .cons _ _, .nil => by simp [CList.beq]
  | .cons x xs, .cons y ys => by
      simp [CList.beq, beqT_iff x y, beqL_iff xs ys]

theorem beqF_iff : ∀ a b : CFields, CFields.beq a b = true ↔ a = b
  | .nil, .nil => by simp [CFields.beq]
  | .nil, .cons _ _ _ => by simp [CFields.beq]
  | .cons _ _ _, .nil => by simp [CFields.beq]
  | .cons k v fs, .cons l w gs => by
      simp [CFields.beq, beqT_iff v w, beqF_iff fs gs, and_assoc]
end

instance : DecidableEq CTree := fun a b =>
  decidable_of_iff (CTree.beq a b = true) (beqT_iff a b)

instance : DecidableEq CList := fun a b =>
  decidable_of_iff (CList.beq a b = true) (beqL_iff a b)

instance : DecidableEq CFields := fun a b =>
  decidable_of_iff (CFields.beq a b = true) (beqF_iff a b)

/-- Build a `CList` from a Lean list (used to write concrete examples). -/
def clistOf : List CTree → CList
  | [] => .nil
  | x :: xs => .cons x (clistOf xs)

/-- Build dict entries from a Lean association list
(used to write concrete examples). -/
def cfieldsOf : List (String × CTree) → CFields
  | [] => .nil
  | (k, v) :: xs => .cons k v (cfieldsOf xs)

/-- The keys of a dict, in order. -/
def CFields.keys : CFields → List String
  | .nil => []
  | .cons k _ fs => k :: CFields.keys fs

/-- Python `d[k]` on a dict: the value of the first entry with key `k`. -/
def lookupF (k : String) : CFields → Option CTree
  | .nil => none
  | .cons k' v fs => if k' = k then some v else lookupF k fs

/-- Python `d[k] = v` on a dict: replace the value at `k` in place if the
key is present, otherwise append the new entry at the end. -/
def updateF (k : String) (v : CTree) : CFields → CFields
  | .nil => .cons k v .nil
  | .cons k' w fs => if k' = k then .cons k v fs else .cons k' w (updateF k v fs)

/-- Python `d.pop(k)`: remove the first entry with key `k`. -/
def eraseF (k : String) : CFields → CFields
  | .nil => .nil
  | .cons k' w fs => if k' = k then fs else .cons k' w (eraseF k fs)

/-! ### Serialization codec

`Config.pretty_text` / `Config.fromfile` and `torch.save` / `torch.load`
are external library functions; they are modelled by an executable
encoder/decoder pair on token lists, with the round-trip property the
libraries guarantee proved below. -/

/-- Encode one atomic value. -/
def encodeAtom : CAtom → List CTok
  | .aint n => [.tn 0, .ti n]
  | .arat q => [.tn 1, .tq q]
  | .astr s => [.tn 2, .ts s]
  | .abool b => [.tn 3, .tn (if b then 1 else 0)]
  | .anone => [.tn 4]
  | .albl l => [.tn 5, .ts l.name]
  | .adataset d => [.tn 6, .tn d]
  | .atext xs => .tn 7 :: .tn xs.length :: xs

/-- Decode one atomic value, returning the remaining tokens. -/
def decodeAtom : List CTok → Option (CAtom × List CTok)
  | .tn 0 :: .ti n :: rest => some (.aint n, rest)
  | .tn 1 :: .tq q :: rest => some (.arat q, rest)
  | .tn 2 :: .ts s :: rest => some (.astr s, rest)
  | .tn 3 :: .tn b :: rest => some (.abool (b = 1), rest)
  | .tn 4 :: rest => some (.anone, rest)
  | .tn 5 :: .ts s :: rest => some (.albl ⟨s⟩, rest)
  | .tn 6 :: .tn d :: rest => some (.adataset d, rest)
  | .tn 7 :: .tn n :: rest => some (.atext (rest.take n), rest.drop n)
  | _ => none

mutual
/-- Encode a configuration value. -/
def encodeT : CTree → List CTok
  | .atom a => .tn 0 :: encodeAtom a
  | .lst xs => .tn 1 :: encodeL xs
  | .node fs => .tn 2 :: encodeF fs

/-- Encode a list of configuration values, terminated by an end marker. -/
def encodeL : CList → List CTok
  | .nil => [.tn 0]
  | .cons x xs => .tn 1 :: (encodeT x ++ encodeL xs)

/-- Encode dict entries, terminated by an end marker. -/
def encodeF : CFields → List CTok
  | .nil => [.tn 0]
  | .cons k v fs => .tn 1 :: .ts k :: (encodeT v ++ encodeF fs)
end

mutual
/-- Fueled decoder for a configuration value. -/
def decodeT : Nat → List CTok → Option (CTree × List CTok)
  | 0, _ => none
  | _ + 1, .tn 0 :: rest => (decodeAtom rest).map (fun p => (.atom p.1, p.2))
  | fuel + 1, .tn 1 :: rest => (decodeL fuel rest).map (fun p => (.lst p.1, p.2))
  | fuel + 1, .tn 2 :: rest => (decodeF fuel rest).map (fun p => (.node p.1, p.2))
  | _ + 1, _ => none

/-- Fueled decoder for a list of configuration values. -/
def decodeL : Nat → List CTok → Option (CList × List CTok)
  | 0, _ => none
  | _ + 1, .tn 0 :: rest => some (.nil, rest)
  | fuel + 1, .tn 1 :: rest =>
      match decodeT fuel rest with
      | some (x, r1) =>
          match decodeL fuel r1 with
          | some (xs, r2) => some (.cons x xs, r2)
          | none => none
      | none => none
  | _ + 1, _ => none

/-- Fueled decoder for dict entries. -/
def decodeF : Nat → List CTok → Option (CFields × List CTok)
  | 0, _ => none
  | _ + 1, .tn 0 :: rest => some (.nil, rest)
  | fuel + 1, .tn 1 :: .ts k :: rest =>
      match decodeT fuel rest with
      | some (v, r1) =>
          match decodeF fuel r1 with
          | some (fs, r2) => some (.cons k v fs, r2)
          | none => none
      | none => none
  | _ + 1, _ => none
end

mutual
/-- Nesting depth of a value, used to bound the decoder fuel. -/
def depthT : CTree → Nat
  | .atom _ => 1
  | .lst xs => depthL xs + 1
  | .node fs => depthF fs + 1

def depthL : CList → Nat
  | .nil => 1
  | .cons x xs => max (depthT x) (depthL xs) + 1

def depthF : CFields → Nat
  | .nil => 1
  | .cons _ v fs => max (depthT v) (depthF fs) + 1
end

theorem decodeAtom_encodeAtom (a : CAtom) (rest : List CTok) :
    decodeAtom (encodeAtom a ++ rest) = some (a, rest) := by
  cases a with
  | abool b => cases b <;> simp [encodeAtom, decodeAtom]
  | atext xs =>
      simp [encodeAtom, decodeAtom, List.take_left, List.drop_left]
  | _ => simp [encodeAtom, decodeAtom]

theorem decode_encode (fuel : Nat) :
    (∀ t rest, depthT t ≤ fuel → decodeT fuel (encodeT t ++ rest) = some (t, rest)) ∧
    (∀ l rest, depthL l ≤ fuel → decodeL fuel (encodeL l ++ rest) = some (l, rest)) ∧
    (∀ fs rest, depthF fs ≤ fuel → decodeF fuel (encodeF fs ++ rest) = some (fs, rest)) := by
  induction fuel with
  | zero =>
      refine ⟨fun t _ h => ?_, fun l _ h => ?_, fun fs _ h => ?_⟩
      · cases t <;> simp [depthT] at h
      · cases l <;> simp [depthL] at h
      · cases fs <;> simp [depthF] at h
  | succ fuel ih =>
      obtain ⟨ihT, ihL, ihF⟩ := ih
      refine ⟨fun t rest h => ?_, fun l rest h => ?_, fun fs rest h => ?_⟩
      · cases t with
        | atom a => simp [encodeT, decodeT, decodeAtom_encodeAtom]
        | lst xs =>
            simp only [depthT, Nat.add_le_add_iff_right] at h
            simp [encodeT, decodeT, ihL xs rest h]
        | node fs =>
            simp only [depthT, Nat.add_le_add_iff_right] at h
            simp [encodeT, decodeT, ihF fs rest h]
      · cases l with
        | nil => simp [encodeL, decodeL]
        | cons x xs =>
            simp only [depthL, Nat.add_le_add_iff_right, max_le_iff] at h
            simp [encodeL, decodeL, List.append_assoc,
              ihT x _ h.1, ihL xs rest h.2]
      · cases fs with
        | nil => simp [encodeF, decodeF]
        | cons k v fs =>
            simp only [depthF, Nat.add_le_add_iff_right, max_le_iff] at h
            simp [encodeF, decodeF, List.append_assoc,
              ihT v _ h.1, ihF fs rest h.2]

mutual
/-- The encoder emits at least one token per depth level. -/
theorem depthT_le_length : ∀ t : CTree, depthT t ≤ (encodeT t).length
  | .atom a => by cases a <;> simp [depthT, encodeT, encodeAtom]
  | .lst xs => by
      have := depthL_le_length xs
      simp only [depthT, encodeT, List.length_cons]
      omega
  | .node fs => by
      have := depthF_le_length fs
      simp only [depthT, encodeT, List.length_cons]
      omega

theorem depthL_le_length : ∀ l : CList, depthL l ≤ (encodeL l).length
  | .nil => by simp [depthL, encodeL]
  | .cons x xs => by
      have h1 := depthT_le_length x
      have h2 := depthL_le_length xs
      simp only [depthL, encodeL, List.length_cons, List.length_append]
      omega

theorem depthF_le_length : ∀ fs : CFields, depthF fs ≤ (encodeF fs).length
  | .nil => by simp [depthF, encodeF]
  | .cons k v fs => by
      have h1 := depthT_le_length v
      have h2 := depthF_le_length fs
      simp only [depthF, encodeF, List.length_cons, List.length_append]
      omega
end

/-- Decode a complete stream into a single value (`torch.load`,
`Config.fromfile`): decode one value and require the stream to be
exhausted. -/
def decodeTop (toks : List CTok) : Option CTree :=
  match decodeT toks.length toks with
  | some (t, []) => some t
  | _ => none

/-- Serialization round-trip: decoding an encoded value gives it back. -/
theorem decodeTop_encodeT (t : CTree) : decodeTop (encodeT t) = some t := by
  have h := (decode_encode (encodeT t).length).1 t [] (depthT_le_length t)
  simp only [List.append_nil] at h
  simp [decodeTop, h]

/-! ### Paths into a configuration

A sequence of attribute accesses `config.a.b.c` is modelled as the key
path `["a", "b", "c"]`. -/

/-- Follow a key path from a value. -/
def lookupPathT : CTree → List String → Option CTree
  | t, [] => some t
  | .node fs, k :: p =>
      match lookupF k fs with
      | some v => lookupPathT v p
      | none => none
  | _, _ :: _ => none

/-- Follow a nonempty key path from dict entries; the empty path is
undefined at the entry level. -/
def lookupPathF (fs : CFields) : List String → Option CTree
  | [] => none
  | k :: p =>
      match lookupF k fs with
      | some v => lookupPathT v p
      | none => none

/-- Is this value a non-dict (an atom or a list)? -/
def isLeafVal : CTree → Bool
  | .node _ => false
  | _ => true

/-- The non-dict value found at a key path, if any. -/
def leafAtT (t : CTree) (p : List String) : Option CTree :=
  match lookupPathT t p with
  | some v => if isLeafVal v then some v else none
  | none => none

/-- The non-dict value found at a nonempty key path of dict entries. -/
def leafAtF (fs : CFields) (p : List String) : Option CTree :=
  match lookupPathF fs p with
  | some v => if isLeafVal v then some v else none
  | none => none

/-- Whether a key path leads to a dict. -/
def dictAtT (t : CTree) (p : List String) : Bool :=
  match lookupPathT t p with
  | some (.node _) => true
  | _ => false

/-- Whether a nonempty key path of dict entries leads to a dict. -/
def dictAtF (fs : CFields) (p : List String) : Bool :=
  match lookupPathF fs p with
  | some (.node _) => true
  | _ => false

/-! ### The deep merge of `mmcv.Config._merge_a_into_b`

`_compose_config` and `_replace_config_section_from_file` merge
configurations with `Config._merge_a_into_b(a, b)` (with
`allow_list_keys` left at `False`): for each entry `(k, v)` of `a`, if
`v` is a dict, `k` is present in `b` and `v` does not carry a truthy
`_delete_` flag, then `v` is merged recursively into `b[k]` (a
`TypeError` is raised when `b[k]` is not a dict); otherwise `b[k] = v`
(with the `_delete_` key popped when it was inspected).  The recursion
is implemented with explicit fuel so that it stays executable by the
kernel; `mergeF` supplies fuel that is proved sufficient below. -/

/-- The reserved deletion marker key of `mmcv`. -/
def delKey : String := "_delete_"

/-- Python truthiness of a configuration value. -/
def truthyT : CTree → Bool
  | .atom (.aint n) => n != 0
  | .atom (.arat q) => q != 0
  | .atom (.astr s) => s != ""
  | .atom (.abool b) => b
  | .atom .anone => false
  | .atom (.albl _) => true
  | .atom (.adataset _) => true
  | .atom (.atext xs) => xs != []
  | .lst .nil => false
  | .lst (.cons _ _) => true
  | .node .nil => false
  | .node (.cons _ _ _) => true

/-- A merge fails with a `TypeError` (dict merged onto a non-dict) or by
fuel exhaustion (never, for the fuel chosen in `mergeF`). -/
inductive MergeErr where
  | typeError : MergeErr
  | outOfFuel : MergeErr
  deriving DecidableEq, Repr

/-- Fueled body of `Config._merge_a_into_b`, iterating over the entries
of `a` and updating `b`. -/
def mergeFF : Nat → CFields → CFields → Except MergeErr CFields
  | 0, _, _ => .error .outOfFuel
  | _ + 1, .nil, b => .ok b
  | fuel + 1, .cons k v rest, b =>
      match v with
      | .node vf =>
          match lookupF k b with
          | some bv =>
              let del := match lookupF delKey vf with
                | some dv => truthyT dv
                | none => false
              let vf' := eraseF delKey vf
              if del then
                mergeFF fuel rest (updateF k (.node vf') b)
              else
                match bv with
                | .node bf =>
                    match mergeFF fuel vf' bf with
                    | .ok m => mergeFF fuel rest (updateF k (.node m) b)
                    | .error e => .error e
                | _ => .error .typeError
          | none => mergeFF fuel rest (updateF k v b)
      | _ => mergeFF fuel rest (updateF k v b)

mutual
/-- Size measure used to choose sufficient merge fuel. -/
def msizeT : CTree → Nat
  | .atom _ => 1
  | .lst _ => 1
  | .node fs => msizeF fs + 1

def msizeF : CFields → Nat
  | .nil => 1
  | .cons _ v fs => msizeT v + msizeF fs + 1
end

/-- `Config._merge_a_into_b(a, b)` on dict entries, with sufficient fuel. -/
def mergeF (a b : CFields) : Except MergeErr CFields :=
  mergeFF (msizeF a) a b

/-- `_compose_config`: fold the configuration files (in the order model,
schedule, dataset, runtime, skipping absent ones) into an initially
empty dict, merging each file over the accumulated configuration. -/
def composeList : List CTree → CFields → Except MergeErr CFields
  | [], acc => .ok acc
  | f :: fs, acc =>
      match f with
      | .node ff =>
          match mergeF ff acc with
          | .ok acc' => composeList fs acc'
          | .error e => .error e
      | _ => .error .typeError

/-- `MMDetectionConfigManager._compose_config`. -/
def composeConfig (model schedule dataset runtime : Option CTree) :
    Except MergeErr CTree :=
  match composeList ([model, schedule, dataset, runtime].filterMap id) .nil with
  | .ok fs => .ok (.node fs)
  | .error e => .error e

/-! ### Well-formedness and type-compatibility of configurations -/

mutual
/-- All dicts in the value have pairwise distinct keys (true of every
dict produced by the Python runtime). -/
def wfT : CTree → Bool
  | .atom _ => true
  | .lst xs => wfL xs
  | .node fs => wfF fs

def wfL : CList → Bool
  | .nil => true
  | .cons x xs => wfT x && wfL xs

def wfF : CFields → Bool
  | .nil => true
  | .cons k v fs => (lookupF k fs).isNone && wfT v && wfF fs
end

mutual
/-- No dict in the value uses the reserved `_delete_` key. -/
def noDelT : CTree → Bool
  | .atom _ => true
  | .lst xs => noDelL xs
  | .node fs => noDelF fs

def noDelL : CList → Bool
  | .nil => true
  | .cons x xs => noDelT x && noDelL xs

def noDelF : CFields → Bool
  | .nil => true
  | .cons k v fs => k != delKey && noDelT v && noDelF fs
end

mutual
/-- Type-compatibility: wherever both values define the same key path,
either both hold dicts or both hold non-dicts. -/
def compatT : CTree → CTree → Bool
  | .node af, .node bf => compatF af bf
  | .node _, _ => false
  | _, .node _ => false
  | _, _ => true

def compatF : CFields → CFields → Bool
  | .nil, _ => true
  | .cons k v fs, gs =>
      (match lookupF k gs with
       | some w => compatT v w
       | none => true) && compatF fs gs
end

/-- Left-biased choice on optional values (`Option.orElse`,
specialized to stay convenient for rewriting). -/
def oElse (a b : Option CTree) : Option CTree :=
  match a with
  | some x => some x
  | none => b

@[simp] theorem oElse_some (x : CTree) (b : Option CTree) :
    oElse (some x) b = some x := rfl

@[simp] theorem oElse_none (b : Option CTree) : oElse none b = b := rfl

/-! Basic facts about dict operations. -/

@[simp] theorem lookupF_updateF_self (k : String) (v : CTree) :
    ∀ fs : CFields, lookupF k (updateF k v fs) = some v
  | .nil => by simp [updateF, lookupF]
  | .cons k' w fs => by
      by_cases h : k' = k <;>
        simp [updateF, lookupF, h, lookupF_updateF_self k v fs]

theorem lookupF_updateF_ne {k k' : String} (h : k' ≠ k) (v : CTree) :
    ∀ fs : CFields, lookupF k' (updateF k v fs) = lookupF k' fs
  | .nil => by
      have hk : ¬ k = k' := fun hc => h hc.symm
      simp [updateF, lookupF, hk]
  | .cons k0 w fs => by
      have hk : ¬ k = k' := fun hc => h hc.symm
      by_cases h0 : k0 = k
      · subst h0
        simp [updateF, lookupF, hk]
      · by_cases h1 : k0 = k'
        · subst h1
          simp [updateF, lookupF, h0]
        · simp [updateF, lookupF, h0, h1, lookupF_updateF_ne h v fs]

theorem eraseF_of_lookupF_none {k : String} :
    ∀ {fs : CFields}, lookupF k fs = none → eraseF k fs = fs
  | .nil, _ => by simp [eraseF]
  | .cons k' w fs, h => by
      by_cases h0 : k' = k
      · simp [lookupF, h0] at h
      · simp [lookupF, h0] at h
        simp [eraseF, h0, eraseF_of_lookupF_none h]

theorem updateF_of_lookupF_self {k : String} {v : CTree} :
    ∀ {fs : CFields}, lookupF k fs = some v → updateF k v fs = fs
  | .nil, h => by simp [lookupF] at h
  | .cons k' w fs, h => by
      by_cases h0 : k' = k
      · subst h0
        simp [lookupF] at h
        simp [updateF, h]
      · simp [lookupF, h0] at h
        simp [updateF, h0, updateF_of_lookupF_self h]

theorem noDelF_lookupF_delKey :
    ∀ {fs : CFields}, noDelF fs = true → lookupF delKey fs = none
  | .nil, _ => by simp [lookupF]
  | .cons k v fs, h => by
      simp only [noDelF, Bool.and_eq_true, bne_iff_ne] at h
      simp [lookupF, h.1.1, noDelF_lookupF_delKey h.2]

/-! Path-lookup rewriting rules. -/

@[simp] theorem lookupPathT_nil (t : CTree) : lookupPathT t [] = some t := by
  cases t <;> rfl

@[simp] theorem lookupPathT_atom_cons (a : CAtom) (k : String)
    (p : List String) : lookupPathT (.atom a) (k :: p) = none := rfl

@[simp] theorem lookupPathT_lst_cons (xs : CList) (k : String)
    (p : List String) : lookupPathT (.lst xs) (k :: p) = none := rfl

theorem lookupPathT_node_cons (fs : CFields) (k : String) (p : List String) :
    lookupPathT (.node fs) (k :: p) = lookupPathF fs (k :: p) := rfl

@[simp] theorem lookupPathF_nil (fs : CFields) : lookupPathF fs [] = none := rfl

theorem lookupPathF_cons_some {k : String} {fs : CFields} {v : CTree}
    (h : lookupF k fs = some v) (p : List String) :
    lookupPathF fs (k :: p) = lookupPathT v p := by
  simp [lookupPathF, h]

theorem lookupPathF_cons_none {k : String} {fs : CFields}
    (h : lookupF k fs = none) (p : List String) :
    lookupPathF fs (k :: p) = none := by
  simp [lookupPathF, h]

@[simp] theorem leafAtF_nil (fs : CFields) : leafAtF fs [] = none := rfl

@[simp] theorem dictAtF_nil (fs : CFields) : dictAtF fs [] = false := rfl

@[simp] theorem leafAtT_atom_nil (a : CAtom) :
    leafAtT (.atom a) [] = some (.atom a) := rfl

@[simp] theorem leafAtT_lst_nil (xs : CList) :
    leafAtT (.lst xs) [] = some (.lst xs) := rfl

@[simp] theorem leafAtT_node_nil (fs : CFields) :
    leafAtT (.node fs) [] = none := rfl

@[simp] theorem leafAtT_atom_cons (a : CAtom) (k : String) (p : List String) :
    leafAtT (.atom a) (k :: p) = none := rfl

@[simp] theorem leafAtT_lst_cons (xs : CList) (k : String) (p : List String) :
    leafAtT (.lst xs) (k :: p) = none := rfl

theorem leafAtT_node_cons (fs : CFields) (k : String) (p : List String) :
    leafAtT (.node fs) (k :: p) = leafAtF fs (k :: p) := rfl

@[simp] theorem dictAtT_atom_nil (a : CAtom) : dictAtT (.atom a) [] = false := rfl

@[simp] theorem dictAtT_lst_nil (xs : CList) : dictAtT (.lst xs) [] = false := rfl

@[simp] theorem dictAtT_node_nil (fs : CFields) : dictAtT (.node fs) [] = true := rfl

@[simp] theorem dictAtT_atom_cons (a : CAtom) (k : String) (p : List String) :
    dictAtT (.atom a) (k :: p) = false := rfl

@[simp] theorem dictAtT_lst_cons (xs : CList) (k : String) (p : List String) :
    dictAtT (.lst xs) (k :: p) = false := rfl

theorem dictAtT_node_cons (fs : CFields) (k : String) (p : List String) :
    dictAtT (.node fs) (k :: p) = dictAtF fs (k :: p) := rfl

theorem leafAtF_cons_some {k : String} {fs : CFields} {v : CTree}
    (h : lookupF k fs = some v) (p : List String) :
    leafAtF fs (k :: p) = leafAtT v p := by
  simp [leafAtF, leafAtT, lookupPathF_cons_some h]

theorem leafAtF_cons_none {k : String} {fs : CFields}
    (h : lookupF k fs = none) (p : List String) :
    leafAtF fs (k :: p) = none := by
  simp [leafAtF, lookupPathF_cons_none h]

theorem dictAtF_cons_some {k : String} {fs : CFields} {v : CTree}
    (h : lookupF k fs = some v) (p : List String) :
    dictAtF fs (k :: p) = dictAtT v p := by
  simp [dictAtF, dictAtT, lookupPathF_cons_some h]

theorem dictAtF_cons_none {k : String} {fs : CFields}
    (h : lookupF k fs = none) (p : List String) :
    dictAtF fs (k :: p) = false := by
  simp [dictAtF, lookupPathF_cons_none h]

@[simp] theorem leafAtF_nil_fields (p : List String) :
    leafAtF .nil p = none := by
  cases p with
  | nil => rfl
  | cons k p =>
      exact leafAtF_cons_none (show lookupF k CFields.nil = none from rfl) p

@[simp] theorem dictAtF_nil_fields (p : List String) :
    dictAtF .nil p = false := by
  cases p with
  | nil => rfl
  | cons k p =>
      exact dictAtF_cons_none (show lookupF k CFields.nil = none from rfl) p

@[simp] theorem lookupPathF_nil_fields (p : List String) :
    lookupPathF .nil p = none := by
  cases p with
  | nil => rfl
  | cons k p => simp [lookupPathF, lookupF]

theorem lookupPathF_cons_hd (k : String) (v : CTree) (fs : CFields)
    (p : List String) : lookupPathF (.cons k v fs) (k :: p) = lookupPathT v p := by
  simp [lookupPathF, lookupF]

theorem lookupPathF_cons_ne {k0 k : String} (h : k0 ≠ k) (v : CTree)
    (fs : CFields) (p : List String) :
    lookupPathF (.cons k v fs) (k0 :: p) = lookupPathF fs (k0 :: p) := by
  have hk : ¬ k = k0 := fun hc => h hc.symm
  simp [lookupPathF, lookupF, hk]

theorem lookupPathF_updateF_self (k : String) (w : CTree) (fs : CFields)
    (p : List String) :
    lookupPathF (updateF k w fs) (k :: p) = lookupPathT w p := by
  simp [lookupPathF]

theorem lookupPathF_updateF_ne {k0 k : String} (h : k0 ≠ k) (w : CTree)
    (fs : CFields) (p : List String) :
    lookupPathF (updateF k w fs) (k0 :: p) = lookupPathF fs (k0 :: p) := by
  simp [lookupPathF, lookupF_updateF_ne h]

/-- Extract the non-dict part of an optional lookup result. -/
def leafify : Option CTree → Option CTree
  | some v => if isLeafVal v then some v else none
  | none => none

/-- Whether an optional lookup result holds a dict. -/
def dictify : Option CTree → Bool
  | some (.node _) => true
  | _ => false

theorem leafAtT_eq (t : CTree) (p : List String) :
    leafAtT t p = leafify (lookupPathT t p) := rfl

theorem leafAtF_eq (fs : CFields) (p : List String) :
    leafAtF fs p = leafify (lookupPathF fs p) := rfl

theorem dictAtT_eq (t : CTree) (p : List String) :
    dictAtT t p = dictify (lookupPathT t p) := rfl

theorem dictAtF_eq (fs : CFields) (p : List String) :
    dictAtF fs p = dictify (lookupPathF fs p) := rfl

@[simp] theorem leafify_none : leafify none = none := rfl

@[simp] theorem dictify_none : dictify none = false := rfl

@[simp] theorem dictify_some_node (fs : CFields) :
    dictify (some (.node fs)) = true := rfl

@[simp] theorem leafify_some_node (fs : CFields) :
    leafify (some (.node fs)) = none := rfl

theorem leafify_isSome {o : Option CTree} (h : (leafify o).isSome) :
    o.isSome := by
  cases o with
  | none => simp [leafify] at h
  | some v => simp

theorem dictify_true_isSome {o : Option CTree} (h : dictify o = true) :
    o.isSome := by
  cases o with
  | none => simp [dictify] at h
  | some v => simp

mutual
theorem compatT_sound : ∀ a b : CTree, compatT a b = true →
    ∀ p, (lookupPathT a p).isSome → (lookupPathT b p).isSome →
    dictAtT a p = dictAtT b p
  | .atom x, b, hc, p, ha, hb => by
      cases p with
      | nil =>
          cases b with
          | node bf => simp [compatT] at hc
          | atom y => simp
          | lst ys => simp
      | cons k p' => simp at ha
  | .lst xs, b, hc, p, ha, hb => by
      cases p with
      | nil =>
          cases b with
          | node bf => simp [compatT] at hc
          | atom y => simp
          | lst ys => simp
      | cons k p' => simp at ha
  | .node af, b, hc, p, ha, hb => by
      cases b with
      | atom y => cases p <;> simp_all [compatT]
      | lst ys => cases p <;> simp_all [compatT]
      | node bf =>
          cases p with
          | nil => simp
          | cons k p' =>
              simp only [compatT] at hc
              rw [lookupPathT_node_cons] at ha hb
              rw [dictAtT_node_cons, dictAtT_node_cons]
              exact compatF_sound af bf hc (k :: p') ha hb

theorem compatF_sound : ∀ af bf : CFields, compatF af bf = true →
    ∀ p, (lookupPathF af p).isSome → (lookupPathF bf p).isSome →
    dictAtF af p = dictAtF bf p
  | .nil, bf, hc, p, ha, hb => by simp at ha
  | .cons k v fs, bf, hc, p, ha, hb => by
      simp only [compatF, Bool.and_eq_true] at hc
      cases p with
      | nil => simp at ha
      | cons k0 p' =>
          by_cases hk : k0 = k
          · subst hk
            rw [lookupPathF_cons_hd] at ha
            rw [dictAtF_eq, lookupPathF_cons_hd, ← dictAtT_eq]
            cases hw : lookupF k0 bf with
            | none =>
                rw [lookupPathF_cons_none hw] at hb
                simp at hb
            | some w =>
                rw [dictAtF_eq, lookupPathF_cons_some hw, ← dictAtT_eq]
                rw [lookupPathF_cons_some hw] at hb
                have hcv : compatT v w = true := by
                  have := hc.1
                  simpa [hw] using this
                exact compatT_sound v w hcv p' ha hb
          · rw [lookupPathF_cons_ne hk] at ha
            rw [dictAtF_eq, lookupPathF_cons_ne hk, ← dictAtF_eq]
            exact compatF_sound fs bf hc.2 (k0 :: p') ha hb
end

@[simp] theorem oElse_none_right (a : Option CTree) : oElse a none = a := by
  cases a <;> rfl

theorem msizeT_pos (t : CTree) : 1 ≤ msizeT t := by
  cases t <;> simp [msizeT]

theorem msizeF_pos (fs : CFields) : 1 ≤ msizeF fs := by
  cases fs with
  | nil => simp [msizeF]
  | cons k v t => unfold msizeF; omega

theorem dictify_some_leaf {v : CTree} (hv : isLeafVal v = true) :
    dictify (some v) = false := by
  cases v <;> simp [isLeafVal] at hv ⊢ <;> rfl

theorem leafify_some_leaf {v : CTree} (hv : isLeafVal v = true) :
    leafify (some v) = some v := by
  cases v <;> simp [isLeafVal, leafify] at hv ⊢

/-- Pointwise type-compatibility of dict entries: wherever both sides
define a key path, they agree on whether a dict lives there. -/
def PCompatF (af bf : CFields) : Prop :=
  ∀ p, (lookupPathF af p).isSome → (lookupPathF bf p).isSome →
    dictAtF af p = dictAtF bf p

theorem PCompatF_tail_update {k : String} {v : CTree} {rest bf : CFields}
    (hwk : lookupF k rest = none)
    (hpc : PCompatF (.cons k v rest) bf) (w : CTree) :
    PCompatF rest (updateF k w bf) := by
  intro p ha hb
  cases p with
  | nil => simp at ha
  | cons k0 p' =>
      by_cases hk : k0 = k
      · subst hk
        rw [lookupPathF_cons_none hwk] at ha
        simp at ha
      · rw [lookupPathF_updateF_ne hk] at hb
        have e1 : dictAtF (updateF k w bf) (k0 :: p') = dictAtF bf (k0 :: p') := by
          rw [dictAtF_eq, lookupPathF_updateF_ne hk, ← dictAtF_eq]
        have e2 : dictAtF (.cons k v rest) (k0 :: p') = dictAtF rest (k0 :: p') := by
          rw [dictAtF_eq, lookupPathF_cons_ne hk, ← dictAtF_eq]
        have ha' : (lookupPathF (.cons k v rest) (k0 :: p')).isSome := by
          rw [lookupPathF_cons_ne hk]
          exact ha
        have hres := hpc (k0 :: p') ha' hb
        rw [e2] at hres
        rw [e1]
        exact hres

theorem PCompatF_sub {k : String} {vf rest bf bf0 : CFields}
    (hbv : lookupF k bf = some (.node bf0))
    (hpc : PCompatF (.cons k (.node vf) rest) bf) :
    PCompatF vf bf0 := by
  intro q hq hbq
  cases q with
  | nil => simp at hq
  | cons k1 q' =>
      have ha' : (lookupPathF (.cons k (.node vf) rest) (k :: k1 :: q')).isSome := by
        rw [lookupPathF_cons_hd, lookupPathT_node_cons]
        exact hq
      have hb' : (lookupPathF bf (k :: k1 :: q')).isSome := by
        rw [lookupPathF_cons_some hbv, lookupPathT_node_cons]
        exact hbq
      have e1 : dictAtF (.cons k (.node vf) rest) (k :: k1 :: q')
          = dictAtF vf (k1 :: q') := by
        rw [dictAtF_eq, lookupPathF_cons_hd, lookupPathT_node_cons, ← dictAtF_eq]
      have e2 : dictAtF bf (k :: k1 :: q') = dictAtF bf0 (k1 :: q') := by
        rw [dictAtF_eq, lookupPathF_cons_some hbv, lookupPathT_node_cons,
          ← dictAtF_eq]
      have hres := hpc (k :: k1 :: q') ha' hb'
      rw [e1, e2] at hres
      exact hres

theorem deep_none_of_leaf_head {k : String} {v : CTree} {rest bf : CFields}
    (hv : isLeafVal v = true) (hpc : PCompatF (.cons k v rest) bf) :
    (∀ k1 p'', lookupPathF bf (k :: k1 :: p'') = none) ∧
    (∀ p', dictAtF bf (k :: p') = false) := by
  have hcore : dictAtF bf [k] = false := by
    cases hd : dictAtF bf [k] with
    | false => rfl
    | true =>
        exfalso
        have hb : (lookupPathF bf [k]).isSome := by
          rw [dictAtF_eq] at hd
          exact dictify_true_isSome hd
        have ha : (lookupPathF (.cons k v rest) [k]).isSome := by
          rw [lookupPathF_cons_hd]
          simp
        have hres := hpc [k] ha hb
        rw [hd, dictAtF_eq, lookupPathF_cons_hd, lookupPathT_nil,
          dictify_some_leaf hv] at hres
        exact absurd hres (by decide)
  refine ⟨fun k1 p'' => ?_, fun p' => ?_⟩
  · cases hw : lookupF k bf with
    | none => exact lookupPathF_cons_none hw _
    | some w =>
        cases w with
        | node wf =>
            exfalso
            rw [dictAtF_eq, lookupPathF_cons_some hw, lookupPathT_nil,
              dictify_some_node] at hcore
            exact absurd hcore (by decide)
        | atom a => rw [lookupPathF_cons_some hw]; rfl
        | lst xs => rw [lookupPathF_cons_some hw]; rfl
  · cases p' with
    | nil => exact hcore
    | cons k1 p'' =>
        rw [dictAtF_eq]
        cases hw : lookupF k bf with
        | none => rw [lookupPathF_cons_none hw]; rfl
        | some w =>
            cases w with
            | node wf =>
                exfalso
                rw [dictAtF_eq, lookupPathF_cons_some hw, lookupPathT_nil,
                  dictify_some_node] at hcore
                exact absurd hcore (by decide)
            | atom a => rw [lookupPathF_cons_some hw]; rfl
            | lst xs => rw [lookupPathF_cons_some hw]; rfl

theorem leafAtF_cons_hd (k : String) (v : CTree) (fs : CFields)
    (p : List String) : leafAtF (.cons k v fs) (k :: p) = leafAtT v p := by
  rw [leafAtF_eq, lookupPathF_cons_hd, ← leafAtT_eq]

theorem leafAtF_cons_ne {k0 k : String} (h : k0 ≠ k) {v : CTree}
    {fs : CFields} (p : List String) :
    leafAtF (.cons k v fs) (k0 :: p) = leafAtF fs (k0 :: p) := by
  rw [leafAtF_eq, lookupPathF_cons_ne h, ← leafAtF_eq]

theorem leafAtF_updateF_self (k : String) (w : CTree) (fs : CFields)
    (p : List String) : leafAtF (updateF k w fs) (k :: p) = leafAtT w p := by
  rw [leafAtF_eq, lookupPathF_updateF_self, ← leafAtT_eq]

theorem leafAtF_updateF_ne {k0 k : String} (h : k0 ≠ k) {w : CTree}
    {fs : CFields} (p : List String) :
    leafAtF (updateF k w fs) (k0 :: p) = leafAtF fs (k0 :: p) := by
  rw [leafAtF_eq, lookupPathF_updateF_ne h, ← leafAtF_eq]

theorem dictAtF_cons_hd (k : String) (v : CTree) (fs : CFields)
    (p : List String) : dictAtF (.cons k v fs) (k :: p) = dictAtT v p := by
  rw [dictAtF_eq, lookupPathF_cons_hd, ← dictAtT_eq]

theorem dictAtF_cons_ne {k0 k : String} (h : k0 ≠ k) {v : CTree}
    {fs : CFields} (p : List String) :
    dictAtF (.cons k v fs) (k0 :: p) = dictAtF fs (k0 :: p) := by
  rw [dictAtF_eq, lookupPathF_cons_ne h, ← dictAtF_eq]

theorem dictAtF_updateF_self (k : String) (w : CTree) (fs : CFields)
    (p : List String) : dictAtF (updateF k w fs) (k :: p) = dictAtT w p := by
  rw [dictAtF_eq, lookupPathF_updateF_self, ← dictAtT_eq]

theorem dictAtF_updateF_ne {k0 k : String} (h : k0 ≠ k) {w : CTree}
    {fs : CFields} (p : List String) :
    dictAtF (updateF k w fs) (k0 :: p) = dictAtF fs (k0 :: p) := by
  rw [dictAtF_eq, lookupPathF_updateF_ne h, ← dictAtF_eq]

theorem leafAtF_of_lookupPathF_none {fs : CFields} {p : List String}
    (h : lookupPathF fs p = none) : leafAtF fs p = none := by
  rw [leafAtF_eq, h]
  rfl

theorem dictAtF_of_lookupPathF_none {fs : CFields} {p : List String}
    (h : lookupPathF fs p = none) : dictAtF fs p = false := by
  rw [dictAtF_eq, h]
  rfl

/-- Correctness of the fueled `_merge_a_into_b`: given sufficient fuel,
distinct keys and no `_delete_` markers in `a`, and type-compatibility of
`a` with `b`, the merge succeeds, every non-dict value of the result is
the one from `a` if `a` defines the path and the one from `b` otherwise,
and the result has a dict exactly where either input has one. -/
theorem mergeFF_spec : ∀ (fuel : Nat) (af bf : CFields),
    msizeF af ≤ fuel → noDelF af = true → wfF af = true → PCompatF af bf →
    ∃ cf, mergeFF fuel af bf = .ok cf ∧
      (∀ p, leafAtF cf p = oElse (leafAtF af p) (leafAtF bf p)) ∧
      (∀ p, dictAtF cf p = (dictAtF af p || dictAtF bf p)) := by
  intro fuel
  induction fuel with
  | zero =>
      intro af bf hsz _ _ _
      exact absurd hsz (by have := msizeF_pos af; omega)
  | succ fuel ih =>
      intro af bf hsz hnd hwf hpc
      cases af with
      | nil =>
          exact ⟨bf, rfl, fun p => by simp, fun p => by simp⟩
      | cons k v rest =>
          simp only [noDelF, Bool.and_eq_true, bne_iff_ne] at hnd
          obtain ⟨⟨hndk, hndv⟩, hndr⟩ := hnd
          simp only [wfF, Bool.and_eq_true, Option.isNone_iff_eq_none] at hwf
          obtain ⟨⟨hwk, hwv⟩, hwr⟩ := hwf
          have hvpos := msizeT_pos v
          have hrpos := msizeF_pos rest
          have hszr : msizeF rest ≤ fuel := by
            simp only [msizeF] at hsz
            omega
          cases v with
          | atom a =>
              have hv : isLeafVal (.atom a) = true := rfl
              have hdn := deep_none_of_leaf_head hv hpc
              obtain ⟨cf, hcf, hL, hD⟩ := ih rest (updateF k (.atom a) bf)
                hszr hndr hwr (PCompatF_tail_update hwk hpc (.atom a))
              refine ⟨cf, hcf, fun p => ?_, fun p => ?_⟩
              · rw [hL p]
                cases p with
                | nil => simp
                | cons k0 p' =>
                    by_cases hk : k0 = k
                    · subst hk
                      rw [leafAtF_cons_none hwk, leafAtF_updateF_self,
                        leafAtF_cons_hd]
                      cases p' with
                      | nil => simp
                      | cons k1 p'' =>
                          rw [leafAtF_of_lookupPathF_none (hdn.1 k1 p'')]
                          simp
                    · rw [leafAtF_updateF_ne hk, leafAtF_cons_ne hk]
              · rw [hD p]
                cases p with
                | nil => simp
                | cons k0 p' =>
                    by_cases hk : k0 = k
                    · subst hk
                      rw [dictAtF_cons_none hwk, dictAtF_updateF_self,
                        dictAtF_cons_hd, hdn.2 p']
                      cases p' <;> simp
                    · rw [dictAtF_updateF_ne hk, dictAtF_cons_ne hk]
          | lst xs =>
              have hv : isLeafVal (.lst xs) = true := rfl
              have hdn := deep_none_of_leaf_head hv hpc
              obtain ⟨cf, hcf, hL, hD⟩ := ih rest (updateF k (.lst xs) bf)
                hszr hndr hwr (PCompatF_tail_update hwk hpc (.lst xs))
              refine ⟨cf, hcf, fun p => ?_, fun p => ?_⟩
              · rw [hL p]
                cases p with
                | nil => simp
                | cons k0 p' =>
                    by_cases hk : k0 = k
                    · subst hk
                      rw [leafAtF_cons_none hwk, leafAtF_updateF_self,
                        leafAtF_cons_hd]
                      cases p' with
                      | nil => simp
                      | cons k1 p'' =>
                          rw [leafAtF_of_lookupPathF_none (hdn.1 k1 p'')]
                          simp
                    · rw [leafAtF_updateF_ne hk, leafAtF_cons_ne hk]
              · rw [hD p]
                cases p with
                | nil => simp
                | cons k0 p' =>
                    by_cases hk : k0 = k
                    · subst hk
                      rw [dictAtF_cons_none hwk, dictAtF_updateF_self,
                        dictAtF_cons_hd, hdn.2 p']
                      cases p' <;> simp
                    · rw [dictAtF_updateF_ne hk, dictAtF_cons_ne hk]
          | node vf =>
              have hndvf : noDelF vf = true := hndv
              have hwvf : wfF vf = true := hwv
              have hdel : lookupF delKey vf = none := noDelF_lookupF_delKey hndvf
              have herase : eraseF delKey vf = vf := eraseF_of_lookupF_none hdel
              cases hbv : lookupF k bf with
              | none =>
                  have hstep : mergeFF (fuel + 1) (.cons k (.node vf) rest) bf
                      = mergeFF fuel rest (updateF k (.node vf) bf) := by
                    simp only [mergeFF, hbv]
                  obtain ⟨cf, hcf, hL, hD⟩ := ih rest (updateF k (.node vf) bf)
                    hszr hndr hwr (PCompatF_tail_update hwk hpc (.node vf))
                  refine ⟨cf, by rw [hstep]; exact hcf, fun p => ?_, fun p => ?_⟩
                  · rw [hL p]
                    cases p with
                    | nil => simp
                    | cons k0 p' =>
                        by_cases hk : k0 = k
                        · subst hk
                          rw [leafAtF_cons_none hwk, leafAtF_updateF_self,
                            leafAtF_cons_hd,
                            leafAtF_of_lookupPathF_none (lookupPathF_cons_none hbv p')]
                          simp
                        · rw [leafAtF_updateF_ne hk, leafAtF_cons_ne hk]
                  · rw [hD p]
                    cases p with
                    | nil => simp
                    | cons k0 p' =>
                        by_cases hk : k0 = k
                        · subst hk
                          rw [dictAtF_cons_none hwk, dictAtF_updateF_self,
                            dictAtF_cons_hd,
                            dictAtF_of_lookupPathF_none (lookupPathF_cons_none hbv p')]
                          simp
                        · rw [dictAtF_updateF_ne hk, dictAtF_cons_ne hk]
              | some bv =>
                  cases bv with
                  | atom b0 =>
                      exfalso
                      have ha : (lookupPathF (.cons k (.node vf) rest) [k]).isSome := by
                        rw [lookupPathF_cons_hd]
                        simp
                      have hb : (lookupPathF bf [k]).isSome := by
                        rw [lookupPathF_cons_some hbv]
                        simp
                      have hres := hpc [k] ha hb
                      rw [dictAtF_eq, lookupPathF_cons_hd, lookupPathT_nil] at hres
                      rw [dictAtF_eq, lookupPathF_cons_some hbv, lookupPathT_nil] at hres
                      simp [dictify] at hres
                  | lst ys =>
                      exfalso
                      have ha : (lookupPathF (.cons k (.node vf) rest) [k]).isSome := by
                        rw [lookupPathF_cons_hd]
                        simp
                      have hb : (lookupPathF bf [k]).isSome := by
                        rw [lookupPathF_cons_some hbv]
                        simp
                      have hres := hpc [k] ha hb
                      rw [dictAtF_eq, lookupPathF_cons_hd, lookupPathT_nil] at hres
                      rw [dictAtF_eq, lookupPathF_cons_some hbv, lookupPathT_nil] at hres
                      simp [dictify] at hres
                  | node bf0 =>
                      have hszv : msizeF vf ≤ fuel := by
                        simp only [msizeF, msizeT] at hsz
                        omega
                      obtain ⟨m, hm, hmL, hmD⟩ := ih vf bf0 hszv hndvf hwvf
                        (PCompatF_sub hbv hpc)
                      have hstep : mergeFF (fuel + 1) (.cons k (.node vf) rest) bf
                          = mergeFF fuel rest (updateF k (.node m) bf) := by
                        simp only [mergeFF, hbv, hdel, herase, hm]
                        simp
                      obtain ⟨cf, hcf, hL, hD⟩ := ih rest (updateF k (.node m) bf)
                        hszr hndr hwr (PCompatF_tail_update hwk hpc (.node m))
                      refine ⟨cf, by rw [hstep]; exact hcf, fun p => ?_, fun p => ?_⟩
                      · rw [hL p]
                        cases p with
                        | nil => simp
                        | cons k0 p' =>
                            by_cases hk : k0 = k
                            · subst hk
                              rw [leafAtF_cons_none hwk, leafAtF_updateF_self,
                                leafAtF_cons_hd]
                              have ebf : leafAtF bf (k0 :: p')
                                  = leafAtT (.node bf0) p' := by
                                rw [leafAtF_eq, lookupPathF_cons_some hbv,
                                  ← leafAtT_eq]
                              rw [ebf]
                              cases p' with
                              | nil => simp
                              | cons k1 p'' =>
                                  rw [leafAtT_node_cons m, leafAtT_node_cons vf,
                                    leafAtT_node_cons bf0, hmL]
                                  simp
                            · rw [leafAtF_updateF_ne hk, leafAtF_cons_ne hk]
                      · rw [hD p]
                        cases p with
                        | nil => simp
                        | cons k0 p' =>
                            by_cases hk : k0 = k
                            · subst hk
                              rw [dictAtF_cons_none hwk, dictAtF_updateF_self,
                                dictAtF_cons_hd]
                              have ebf : dictAtF bf (k0 :: p')
                                  = dictAtT (.node bf0) p' := by
                                rw [dictAtF_eq, lookupPathF_cons_some hbv,
                                  ← dictAtT_eq]
                              rw [ebf]
                              cases p' with
                              | nil => simp
                              | cons k1 p'' =>
                                  rw [dictAtT_node_cons m, dictAtT_node_cons vf,
                                    dictAtT_node_cons bf0, hmD]
                                  simp
                            · rw [dictAtF_updateF_ne hk, dictAtF_cons_ne hk]

/-- Pointwise type-compatibility of two configuration values. -/
def PCT (a b : CTree) : Prop :=
  ∀ p, (lookupPathT a p).isSome → (lookupPathT b p).isSome →
    dictAtT a p = dictAtT b p

theorem PCT_of_compatT {a b : CTree} (h : compatT a b = true) : PCT a b :=
  compatT_sound a b h

theorem PCompatF_of_PCT {af bf : CFields} (h : PCT (.node af) (.node bf)) :
    PCompatF af bf := by
  intro p ha hb
  cases p with
  | nil => simp at ha
  | cons k p' =>
      have hres := h (k :: p')
        (by rw [lookupPathT_node_cons]; exact ha)
        (by rw [lookupPathT_node_cons]; exact hb)
      rw [dictAtT_node_cons, dictAtT_node_cons] at hres
      exact hres

/-- All-pairs compatibility check of a file against later files. -/
def allCompatFrom : CTree → List CTree → Bool
  | _, [] => true
  | f, g :: gs => compatT f g && allCompatFrom f gs

/-- All-pairs compatibility check of a list of files. -/
def allCompat : List CTree → Bool
  | [] => true
  | f :: fs => allCompatFrom f fs && allCompat fs

theorem allCompatFrom_mem : ∀ {f : CTree} {gs : List CTree} {g : CTree},
    allCompatFrom f gs = true → g ∈ gs → compatT f g = true := by
  intro f gs
  induction gs with
  | nil => intro g _ hg; cases hg
  | cons g0 gs ihg =>
      intro g h hg
      simp only [allCompatFrom, Bool.and_eq_true] at h
      rcases List.mem_cons.mp hg with rfl | hg'
      · exact h.1
      · exact ihg h.2 hg'

theorem pairwise_PCT_of_allCompat : ∀ {fs : List CTree},
    allCompat fs = true → fs.Pairwise PCT := by
  intro fs
  induction fs with
  | nil => intro _; exact List.Pairwise.nil
  | cons f rest ihf =>
      intro h
      simp only [allCompat, Bool.and_eq_true] at h
      exact List.Pairwise.cons
        (fun g hg => PCT_of_compatT (allCompatFrom_mem h.1 hg)) (ihf h.2)

theorem oElse_isSome (a b : Option CTree) :
    (oElse a b).isSome = (a.isSome || b.isSome) := by
  cases a <;> simp [oElse]

theorem isSome_lookupPathF_iff (fs : CFields) (p : List String) :
    (lookupPathF fs p).isSome = ((leafAtF fs p).isSome || dictAtF fs p) := by
  rw [leafAtF_eq, dictAtF_eq]
  cases h : lookupPathF fs p with
  | none => simp [leafify, dictify]
  | some v => cases v <;> simp [leafify, dictify, isLeafVal]

theorem leafAtF_eq_leafAtT_node (ff : CFields) (p : List String) :
    leafAtF ff p = leafAtT (.node ff) p := by
  cases p with
  | nil => simp
  | cons k p' => rw [leafAtT_node_cons]

theorem dictAtF_eq_dictAtT_node (ff : CFields) (k : String)
    (p' : List String) :
    dictAtF ff (k :: p') = dictAtT (.node ff) (k :: p') :=
  (dictAtT_node_cons ff k p').symm

/-- Correctness of the `_compose_config` fold: with node-shaped,
`_delete_`-free, duplicate-free and pairwise type-compatible files (all
also compatible with the accumulator), the fold succeeds and the
non-dict value at each key path is the latest-file value, falling back
to the accumulator. -/
theorem composeList_spec : ∀ (fs : List CTree) (acc : CFields),
    (∀ f ∈ fs, ∃ ff, f = CTree.node ff ∧ noDelF ff = true ∧ wfF ff = true) →
    fs.Pairwise PCT →
    (∀ f ∈ fs, ∀ ff, f = CTree.node ff → PCompatF ff acc) →
    ∃ c, composeList fs acc = .ok c ∧
      (∀ p, leafAtF c p =
        fs.foldl (fun cur f => oElse (leafAtT f p) cur) (leafAtF acc p)) ∧
      (∀ k p', dictAtF c (k :: p') =
        fs.foldl (fun cur f => (dictAtT f (k :: p') || cur))
          (dictAtF acc (k :: p'))) := by
  intro fs
  induction fs with
  | nil =>
      intro acc _ _ _
      exact ⟨acc, rfl, fun p => rfl, fun k p' => rfl⟩
  | cons f rest ihf =>
      intro acc hfile hpair hacc
      obtain ⟨ff, rfl, hnd, hwf⟩ := hfile f (List.mem_cons_self f rest)
      have hpcacc : PCompatF ff acc :=
        hacc _ (List.mem_cons_self _ rest) ff rfl
      obtain ⟨c1, hm1, L1, D1⟩ :=
        mergeFF_spec (msizeF ff) ff acc le_rfl hnd hwf hpcacc
      have hstep : composeList (CTree.node ff :: rest) acc
          = composeList rest c1 := by
        simp only [composeList, mergeF, hm1]
      have hpair' := List.pairwise_cons.mp hpair
      have hacc' : ∀ g ∈ rest, ∀ gf, g = CTree.node gf → PCompatF gf c1 := by
        intro g hg gf hgf p hga hgc1
        subst hgf
        have hffgf : PCompatF ff gf :=
          PCompatF_of_PCT (hpair'.1 _ hg)
        have hgfacc : PCompatF gf acc :=
          hacc _ (List.mem_cons_of_mem _ hg) gf rfl
        have hc1d : ((leafAtF c1 p).isSome || dictAtF c1 p) = true := by
          rw [← isSome_lookupPathF_iff]
          exact hgc1
        rw [L1 p, D1 p, oElse_isSome] at hc1d
        rw [D1 p]
        by_cases hdf : (lookupPathF ff p).isSome = true
        · have h1 : dictAtF gf p = dictAtF ff p := (hffgf p hdf hga).symm
          by_cases hda : (lookupPathF acc p).isSome = true
          · have h2 : dictAtF ff p = dictAtF acc p := hpcacc p hdf hda
            rw [h1, ← h2, Bool.or_self]
          · have h2 : dictAtF acc p = false :=
              dictAtF_of_lookupPathF_none
                (Option.not_isSome_iff_eq_none.mp (by simp [hda]))
            rw [h1, h2, Bool.or_false]
        · have h0 : lookupPathF ff p = none :=
            Option.not_isSome_iff_eq_none.mp (by simp [hdf])
          have h1 : dictAtF ff p = false := dictAtF_of_lookupPathF_none h0
          have h2 : (leafAtF ff p).isSome = false := by
            rw [leafAtF_of_lookupPathF_none h0]
            rfl
          rw [h1, h2] at hc1d
          have hda : (lookupPathF acc p).isSome = true := by
            rw [isSome_lookupPathF_iff]
            simpa using hc1d
          rw [h1, Bool.false_or]
          exact hgfacc p hga hda
      obtain ⟨c, hc, hLc, hDc⟩ := ihf c1
        (fun g hg => hfile g (List.mem_cons_of_mem _ hg)) hpair'.2 hacc'
      refine ⟨c, by rw [hstep]; exact hc, fun p => ?_, fun k p' => ?_⟩
      · rw [hLc p, List.foldl_cons, L1 p, leafAtF_eq_leafAtT_node]
      · rw [hDc k p', List.foldl_cons, D1 (k :: p'),
          dictAtF_eq_dictAtT_node]

/-- Whether a configuration value is a dict. -/
def isNodeT : CTree → Bool
  | .node _ => true
  | _ => false

/-- Claim C3 (amended): `_compose_config` merges the four layered
configuration files in the fixed order model, schedule, dataset, runtime
(skipping any that are `None`) by the recursive deep merge of
`Config._merge_a_into_b`.  Provided the files are type-consistent (no
key path holds a dict in one file and a non-dict in another), use
distinct keys, and carry no `_delete_` markers, the composed
configuration holds, at every key path leading to a non-dict value, the
value from the last file in the list that defines that path — so a path
defined in exactly one file keeps that file's value, and a path defined
in several files gets the value of the last one. -/
theorem C3_compose_config_last_wins
    (model schedule dataset runtime : Option CTree) (files : List CTree)
    (hfiles : [model, schedule, dataset, runtime].filterMap id = files)
    (hshape : files.all (fun f => isNodeT f && noDelT f && wfT f) = true)
    (hcompat : allCompat files = true) :
    ∃ c, composeConfig model schedule dataset runtime = .ok (.node c) ∧
      ∀ p, leafAtF c p =
        files.foldl (fun cur f => oElse (leafAtT f p) cur) none := by
  subst hfiles
  have hshape' : ∀ f ∈ [model, schedule, dataset, runtime].filterMap id,
      ∃ ff, f = CTree.node ff ∧ noDelF ff = true ∧ wfF ff = true := by
    intro f hf
    have hb := List.all_eq_true.mp hshape f hf
    simp only [Bool.and_eq_true] at hb
    cases f with
    | node ff => exact ⟨ff, rfl, hb.1.2, hb.2⟩
    | atom a => simp [isNodeT] at hb
    | lst xs => simp [isNodeT] at hb
  have hpair := pairwise_PCT_of_allCompat hcompat
  have hacc : ∀ f ∈ [model, schedule, dataset, runtime].filterMap id,
      ∀ ff, f = CTree.node ff → PCompatF ff .nil := by
    intro f _ ff _ p _ hb
    simp at hb
  obtain ⟨c, hc, hL, hD⟩ := composeList_spec _ .nil hshape' hpair hacc
  refine ⟨c, ?_, fun p => ?_⟩
  · simp only [composeConfig, hc]
  · have := hL p
    simpa using this

/-- Witness for C3: a concrete model file and dataset file, each with
one scalar entry, merge with the dataset file winning on the shared path
and each private path preserved. -/
theorem C3_compose_config_last_wins_witness :
    ∃ c, composeConfig
        (some (.node (cfieldsOf [("lr", .atom (.aint 1)), ("depth", .atom (.aint 7))])))
        none
        (some (.node (cfieldsOf [("lr", .atom (.aint 2))])))
        none = .ok (.node c) ∧
      ∀ p, leafAtF c p =
        [CTree.node (cfieldsOf [("lr", .atom (.aint 1)), ("depth", .atom (.aint 7))]),
         CTree.node (cfieldsOf [("lr", .atom (.aint 2))])].foldl
          (fun cur f => oElse (leafAtT f p) cur) none :=
  C3_compose_config_last_wins _ _ _ _ _ rfl (by decide) (by decide)

/-- Counterexample to C3 as stated: with a model file `a = dict(b=1)`
and a dataset file `a = 5`, the key path `a.b` is defined in exactly one
file, yet it is not preserved in the composed configuration — the later
file's scalar at `a` silently discards the whole earlier subtree. -/
theorem C3_counterexample :
    composeConfig
        (some (.node (cfieldsOf [("a", .node (cfieldsOf [("b", .atom (.aint 1))]))])))
        none
        (some (.node (cfieldsOf [("a", .atom (.aint 5))])))
        none
      = .ok (.node (cfieldsOf [("a", .atom (.aint 5))])) ∧
    leafAtT (.node (cfieldsOf [("a", .node (cfieldsOf [("b", .atom (.aint 1))]))]))
      ["a", "b"] = some (.atom (.aint 1)) ∧
    leafAtT (.node (cfieldsOf [("a", .atom (.aint 5))])) ["a", "b"] = none ∧
    leafAtT (.node (cfieldsOf [("a", .atom (.aint 5))])) ["a"]
      = some (.atom (.aint 5)) ∧
    leafAtT (.node (cfieldsOf [("a", .atom (.aint 5))])) ["a", "b"] = none :=
  ⟨rfl, rfl, rfl, rfl, rfl⟩

/-! ### Attribute-chain assignment

`config.a.b.c = v` reads the dicts along the prefix (`AttributeError`,
modelled as an error, when a prefix key is missing or holds a non-dict)
and sets the final key, creating it if absent. -/

/-- Set the value at a nonempty key path. -/
def setPathT : CTree → List String → CTree → Except Unit CTree
  | .node fs, [k], v => .ok (.node (updateF k v fs))
  | .node fs, k :: k1 :: p, v =>
      match lookupF k fs with
      | some sub =>
          match setPathT sub (k1 :: p) v with
          | .ok sub' => .ok (.node (updateF k sub' fs))
          | .error e => .error e
      | none => .error ()
  | _, _, _ => .error ()

/-- Two key paths diverge when they differ at some position that both
paths reach (neither is a prefix of the other up to that point). -/
def divergeP : List String → List String → Bool
  | a :: as, b :: bs => a != b || divergeP as bs
  | _, _ => false

theorem setPathT_lookup_self :
    ∀ {t : CTree} {p : List String} {v t' : CTree},
      setPathT t p v = .ok t' → lookupPathT t' p = some v := by
  intro t p
  induction p generalizing t with
  | nil => intro v t' h; cases t <;> simp [setPathT] at h
  | cons k p' ihp =>
      intro v t' h
      cases t with
      | atom a => simp [setPathT] at h
      | lst xs => simp [setPathT] at h
      | node fs =>
          cases p' with
          | nil =>
              simp only [setPathT, Except.ok.injEq] at h
              subst h
              rw [lookupPathT_node_cons, lookupPathF_updateF_self]
              exact lookupPathT_nil v
          | cons k1 p'' =>
              cases hsub : lookupF k fs with
              | none => simp [setPathT, hsub] at h
              | some sub =>
                  cases hrec : setPathT sub (k1 :: p'') v with
                  | error e => simp [setPathT, hsub, hrec] at h
                  | ok sub' =>
                      simp only [setPathT, hsub, hrec, Except.ok.injEq] at h
                      subst h
                      rw [lookupPathT_node_cons, lookupPathF_updateF_self]
                      exact ihp hrec

theorem setPathT_lookup_diverge :
    ∀ {t : CTree} {p : List String} {v t' : CTree},
      setPathT t p v = .ok t' → ∀ q, divergeP p q = true →
      lookupPathT t' q = lookupPathT t q := by
  intro t p
  induction p generalizing t with
  | nil => intro v t' h; cases t <;> simp [setPathT] at h
  | cons k p' ihp =>
      intro v t' h q hq
      cases q with
      | nil => simp [divergeP] at hq
      | cons k0 q0 =>
          simp only [divergeP, Bool.or_eq_true, bne_iff_ne] at hq
          cases t with
          | atom a => simp [setPathT] at h
          | lst xs => simp [setPathT] at h
          | node fs =>
              by_cases hk : k0 = k
              · subst hk
                have hq' : divergeP p' q0 = true := by
                  rcases hq with hne | hq'
                  · exact absurd rfl hne
                  · exact hq'
                cases p' with
                | nil => simp [divergeP] at hq'
                | cons k1 p'' =>
                    cases hsub : lookupF k0 fs with
                    | none => simp [setPathT, hsub] at h
                    | some sub =>
                        cases hrec : setPathT sub (k1 :: p'') v with
                        | error e => simp [setPathT, hsub, hrec] at h
                        | ok sub' =>
                            simp only [setPathT, hsub, hrec,
                              Except.ok.injEq] at h
                            subst h
                            rw [lookupPathT_node_cons,
                              lookupPathF_updateF_self]
                            rw [lookupPathT_node_cons,
                              lookupPathF_cons_some hsub]
                            exact ihp hrec q0 hq'
              · have hstruct : ∃ fs', t' = CTree.node fs' ∧
                    ∀ k2, k2 ≠ k → lookupF k2 fs' = lookupF k2 fs := by
                  cases p' with
                  | nil =>
                      simp only [setPathT, Except.ok.injEq] at h
                      exact ⟨_, h.symm, fun k2 hk2 =>
                        lookupF_updateF_ne hk2 v fs⟩
                  | cons k1 p'' =>
                      cases hsub : lookupF k fs with
                      | none => simp [setPathT, hsub] at h
                      | some sub =>
                          cases hrec : setPathT sub (k1 :: p'') v with
                          | error e => simp [setPathT, hsub, hrec] at h
                          | ok sub' =>
                              simp only [setPathT, hsub, hrec,
                                Except.ok.injEq] at h
                              exact ⟨_, h.symm, fun k2 hk2 =>
                                lookupF_updateF_ne hk2 _ fs⟩
                obtain ⟨fs', rfl, hlk⟩ := hstruct
                rw [lookupPathT_node_cons, lookupPathT_node_cons]
                simp only [lookupPathF, hlk k0 hk]

/-! ### `config_to_string` / `config_from_string`
(`MMDetectionConfigManager`) -/

/-- `[label.name for label in config.labels]`: read the `name` of every
element; a non-label element has no `name` attribute
(`AttributeError`, modelled as an error). -/
def labelNames : CList → Except Unit (List String)
  | .nil => .ok []
  | .cons (.atom (.albl l)) xs =>
      match labelNames xs with
      | .ok ns => .ok (l.name :: ns)
      | .error e => .error e
  | .cons _ _ => .error ()

/-- `config_to_string`: deep-copy the configuration, null out the three
`ote_dataset` entries, replace `labels` by the label names read from the
input configuration, and serialize (`Config(...).pretty_text`). -/
def config_to_string (cfg : CTree) : Except Unit (List CTok) := do
  let c1 ← setPathT cfg ["data", "test", "ote_dataset"] (.atom .anone)
  let c2 ← setPathT c1 ["data", "train", "ote_dataset"] (.atom .anone)
  let c3 ← setPathT c2 ["data", "val", "ote_dataset"] (.atom .anone)
  let lbls ← match lookupPathT cfg ["labels"] with
    | some (.lst xs) => labelNames xs
    | _ => .error ()
  let c4 ← setPathT c3 ["labels"]
    (.lst (clistOf (lbls.map (fun s => .atom (.astr s)))))
  .ok (encodeT c4)

/-- `config_from_string`: parse serialized configuration text
(`Config.fromfile` on the written temp file). -/
def config_from_string (toks : List CTok) : Option CTree :=
  decodeTop toks

/-- The round trip `config_from_string (config_to_string cfg)`,
propagating a serialization failure as `none`. -/
def roundtripConfig (cfg : CTree) : Option CTree :=
  match config_to_string cfg with
  | .ok toks => config_from_string toks
  | .error _ => none

/-- Claim C8 (amended): configuration text serialization round-trips up
to the substitutions `config_to_string` itself performs on its deep
copy: `config_from_string (config_to_string config)` yields the
original configuration with its three `ote_dataset` entries set to
`None` and its `labels` entry replaced by the list of the labels' name
strings; every key path diverging from those four is unchanged.  The
input configuration itself is left unmodified (the mutations act on a
deep copy). -/
theorem C8_config_string_roundtrip (cfg : CTree) (toks : List CTok)
    (h : config_to_string cfg = .ok toks) :
    ∃ c, config_from_string toks = some c ∧
      lookupPathT c ["data", "test", "ote_dataset"] = some (.atom .anone) ∧
      lookupPathT c ["data", "train", "ote_dataset"] = some (.atom .anone) ∧
      lookupPathT c ["data", "val", "ote_dataset"] = some (.atom .anone) ∧
      (∃ xs lbls, lookupPathT cfg ["labels"] = some (.lst xs) ∧
        labelNames xs = .ok lbls ∧
        lookupPathT c ["labels"]
          = some (.lst (clistOf (lbls.map (fun s => .atom (.astr s)))))) ∧
      (∀ q, divergeP ["data", "test", "ote_dataset"] q = true →
            divergeP ["data", "train", "ote_dataset"] q = true →
            divergeP ["data", "val", "ote_dataset"] q = true →
            divergeP ["labels"] q = true →
            lookupPathT c q = lookupPathT cfg q) := by
  simp only [config_to_string, bind, Except.bind] at h
  cases h1 : setPathT cfg ["data", "test", "ote_dataset"] (.atom .anone) with
  | error e => simp only [h1] at h; exact Except.noConfusion h
  | ok c1 =>
  simp only [h1] at h
  cases h2 : setPathT c1 ["data", "train", "ote_dataset"] (.atom .anone) with
  | error e => simp only [h2] at h; exact Except.noConfusion h
  | ok c2 =>
  simp only [h2] at h
  cases h3 : setPathT c2 ["data", "val", "ote_dataset"] (.atom .anone) with
  | error e => simp only [h3] at h; exact Except.noConfusion h
  | ok c3 =>
  simp only [h3] at h
  cases hl : lookupPathT cfg ["labels"] with
  | none => simp only [hl] at h; exact Except.noConfusion h
  | some lv =>
  simp only [hl] at h
  cases lv with
  | atom a => simp at h
  | node nfs => simp at h
  | lst xs =>
  cases hn : labelNames xs with
  | error e => simp only [hn] at h; exact Except.noConfusion h
  | ok lbls =>
  simp only [hn] at h
  cases h4 : setPathT c3 ["labels"]
      (.lst (clistOf (lbls.map (fun s => .atom (.astr s))))) with
  | error e => simp only [h4] at h; exact Except.noConfusion h
  | ok c4 =>
  simp only [h4] at h
  simp only [Except.ok.injEq] at h
  subst h
  refine ⟨c4, decodeTop_encodeT c4, ?_, ?_, ?_, ⟨xs, lbls, rfl, hn, ?_⟩, ?_⟩
  · rw [setPathT_lookup_diverge h4 _ (by decide),
      setPathT_lookup_diverge h3 _ (by decide),
      setPathT_lookup_diverge h2 _ (by decide)]
    exact setPathT_lookup_self h1
  · rw [setPathT_lookup_diverge h4 _ (by decide),
      setPathT_lookup_diverge h3 _ (by decide)]
    exact setPathT_lookup_self h2
  · rw [setPathT_lookup_diverge h4 _ (by decide)]
    exact setPathT_lookup_self h3
  · exact setPathT_lookup_self h4
  · intro q hq1 hq2 hq3 hq4
    rw [setPathT_lookup_diverge h4 _ hq4, setPathT_lookup_diverge h3 _ hq3,
      setPathT_lookup_diverge h2 _ hq2, setPathT_lookup_diverge h1 _ hq1]

/-- Witness for C8: a configuration whose dataset entries are already
`None` and whose label list is empty round-trips through the text
serialization. -/
theorem C8_config_string_roundtrip_witness :
    ∃ c, config_from_string
        (encodeT (.node (cfieldsOf
          [("data", .node (cfieldsOf
            [("test", .node (cfieldsOf [("ote_dataset", .atom .anone)])),
             ("train", .node (cfieldsOf [("ote_dataset", .atom .anone)])),
             ("val", .node (cfieldsOf [("ote_dataset", .atom .anone)]))])),
           ("labels", .lst .nil)]))) = some c ∧
      lookupPathT c ["data", "test", "ote_dataset"] = some (.atom .anone) ∧
      lookupPathT c ["labels"] = some (.lst .nil) := by
  have h : config_to_string (.node (cfieldsOf
      [("data", .node (cfieldsOf
        [("test", .node (cfieldsOf [("ote_dataset", .atom .anone)])),
         ("train", .node (cfieldsOf [("ote_dataset", .atom .anone)])),
         ("val", .node (cfieldsOf [("ote_dataset", .atom .anone)]))])),
       ("labels", .lst .nil)]))
      = .ok (encodeT (.node (cfieldsOf
      [("data", .node (cfieldsOf
        [("test", .node (cfieldsOf [("ote_dataset", .atom .anone)])),
         ("train", .node (cfieldsOf [("ote_dataset", .atom .anone)])),
         ("val", .node (cfieldsOf [("ote_dataset", .atom .anone)]))])),
       ("labels", .lst .nil)]))) := rfl
  obtain ⟨c, hc, ht, _, _, hlbl, _⟩ := C8_config_string_roundtrip _ _ h
  obtain ⟨xs, lbls, hxs, hns, hcl⟩ := hlbl
  refine ⟨c, hc, ht, ?_⟩
  have hxs' : CList.nil = xs := by
    simpa [cfieldsOf, lookupPathT, lookupPathF, lookupF] using hxs
  subst hxs'
  simp only [labelNames, Except.ok.injEq] at hns
  subst hns
  simpa using hcl

/-- Counterexample to C8 as stated: a configuration holding a dataset
entity and one label does not round-trip to an equal configuration —
the dataset entry comes back as `None` and the label entity comes back
as a plain name string. -/
theorem C8_counterexample :
    roundtripConfig (.node (cfieldsOf
      [("data", .node (cfieldsOf
        [("test", .node (cfieldsOf [("ote_dataset", .atom (.adataset 0))])),
         ("train", .node (cfieldsOf [("ote_dataset", .atom (.adataset 1))])),
         ("val", .node (cfieldsOf [("ote_dataset", .atom (.adataset 2))]))])),
       ("labels", .lst (.cons (.atom (.albl ⟨"cat"⟩)) .nil))]))
      = some (.node (cfieldsOf
      [("data", .node (cfieldsOf
        [("test", .node (cfieldsOf [("ote_dataset", .atom .anone)])),
         ("train", .node (cfieldsOf [("ote_dataset", .atom .anone)])),
         ("val", .node (cfieldsOf [("ote_dataset", .atom .anone)]))])),
       ("labels", .lst (.cons (.atom (.astr "cat")) .nil))])) ∧
    (.node (cfieldsOf
      [("data", .node (cfieldsOf
        [("test", .node (cfieldsOf [("ote_dataset", .atom .anone)])),
         ("train", .node (cfieldsOf [("ote_dataset", .atom .anone)])),
         ("val", .node (cfieldsOf [("ote_dataset", .atom .anone)]))])),
       ("labels", .lst (.cons (.atom (.astr "cat")) .nil))]) : CTree)
      ≠ (.node (cfieldsOf
      [("data", .node (cfieldsOf
        [("test", .node (cfieldsOf [("ote_dataset", .atom (.adataset 0))])),
         ("train", .node (cfieldsOf [("ote_dataset", .atom (.adataset 1))])),
         ("val", .node (cfieldsOf [("ote_dataset", .atom (.adataset 2))]))])),
       ("labels", .lst (.cons (.atom (.albl ⟨"cat"⟩)) .nil))])) :=
  ⟨rfl, by decide⟩

/-! ### `update_project_configuration` and the learning-rate schedule
(`MMDetectionConfigManager`) -/

/-- `Config._merge_a_into_b` at configuration level (`a` must be a
dict); used by `_replace_config_section_from_file`. -/
def mergeInto (a b : CTree) : Except MergeErr CTree :=
  match a, b with
  | .node af, .node bf =>
      match mergeF af bf with
      | .ok cf => .ok (.node cf)
      | .error e => .error e
  | _, _ => .error .typeError

/-- The schedule-related section keys popped and re-installed by
`_update_learning_rate_schedule`, in iteration order. -/
def scheduleSections : List String :=
  ["optimizer", "optimizer_config", "lr_config", "momentum_config"]

/-- First half of `_update_learning_rate_schedule`: pop the schedule
sections that are present, then either re-install the sections found in
the custom schedule (schedule name `custom`) or merge the mapped
schedule file over the configuration
(`_replace_config_section_from_file`). -/
def scheduleBase (cfg : CTree) (custom : CFields)
    (getSchedFile : String → CTree) (schedule_name : String) :
    Except Unit CTree := do
  let fs ← match cfg with
    | .node fs => .ok fs
    | _ => .error ()
  let fs := scheduleSections.foldl
    (fun acc s => if (lookupF s acc).isSome then eraseF s acc else acc) fs
  if schedule_name = "custom" then
    .ok (.node (scheduleSections.foldl
      (fun acc s =>
        match lookupF s custom with
        | some v => updateF s v acc
        | none => acc) fs))
  else
    match mergeInto (getSchedFile schedule_name) (.node fs) with
    | .ok c => .ok c
    | .error _ => .error ()

/-- `_update_learning_rate_schedule`: replace the schedule sections and
then, when `warmup_iters > 0`, set the linear warm-up
(`warmup = 'linear'`, `warmup_ratio = 1.0 / 3`, modelled as the exact
ratio, and `warmup_iters`). -/
def update_learning_rate_schedule (cfg : CTree) (custom : CFields)
    (getSchedFile : String → CTree) (schedule_name : String)
    (warmup_iters : Int) : Except Unit CTree := do
  let cfg2 ← scheduleBase cfg custom getSchedFile schedule_name
  if warmup_iters > 0 then do
    let c1 ← setPathT cfg2 ["lr_config", "warmup"] (.atom (.astr "linear"))
    let c2 ← setPathT c1 ["lr_config", "warmup_ratio"]
      (.atom (.arat (1 / 3)))
    setPathT c2 ["lr_config", "warmup_iters"] (.atom (.aint warmup_iters))
  else
    .ok cfg2

/-- The learning parameters read by `update_project_configuration`,
with the `int(...)` / `float(...)` conversions of the configurable
parameter values already applied. -/
structure MMLearningParameters where
  learning_rate_schedule : String
  learning_rate_warmup_iters : Int
  num_epochs : Int
  learning_rate : ℚ
  batch_size : Int

/-- `update_project_configuration`: update the learning-rate schedule,
then set `runner.max_epochs`, `optimizer.lr` and
`data.samples_per_gpu` from the configurable parameters. -/
def update_project_configuration (cfg : CTree) (custom : CFields)
    (getSchedFile : String → CTree) (params : MMLearningParameters) :
    Except Unit CTree := do
  let c1 ← update_learning_rate_schedule cfg custom getSchedFile
    params.learning_rate_schedule params.learning_rate_warmup_iters
  let c2 ← setPathT c1 ["runner", "max_epochs"]
    (.atom (.aint params.num_epochs))
  let c3 ← setPathT c2 ["optimizer", "lr"]
    (.atom (.arat params.learning_rate))
  setPathT c3 ["data", "samples_per_gpu"] (.atom (.aint params.batch_size))

/-- Claim C7: after `update_project_configuration(params)` returns, the
configuration reflects the user-chosen hyperparameters:
`runner.max_epochs` is the configured epoch count, `optimizer.lr` the
configured learning rate, `data.samples_per_gpu` the configured batch
size, and whenever `learning_rate_warmup_iters > 0`, `lr_config` has
`warmup = 'linear'`, `warmup_ratio = 1/3` and `warmup_iters` equal to
that value. -/
theorem C7_update_project_configuration (cfg : CTree) (custom : CFields)
    (getSchedFile : String → CTree) (params : MMLearningParameters)
    (cfg' : CTree)
    (h : update_project_configuration cfg custom getSchedFile params
      = .ok cfg') :
    lookupPathT cfg' ["runner", "max_epochs"]
      = some (.atom (.aint params.num_epochs)) ∧
    lookupPathT cfg' ["optimizer", "lr"]
      = some (.atom (.arat params.learning_rate)) ∧
    lookupPathT cfg' ["data", "samples_per_gpu"]
      = some (.atom (.aint params.batch_size)) ∧
    (params.learning_rate_warmup_iters > 0 →
      lookupPathT cfg' ["lr_config", "warmup"]
        = some (.atom (.astr "linear")) ∧
      lookupPathT cfg' ["lr_config", "warmup_ratio"]
        = some (.atom (.arat (1 / 3))) ∧
      lookupPathT cfg' ["lr_config", "warmup_iters"]
        = some (.atom (.aint params.learning_rate_warmup_iters))) := by
  simp only [update_project_configuration, bind, Except.bind] at h
  cases h1 : update_learning_rate_schedule cfg custom getSchedFile
      params.learning_rate_schedule params.learning_rate_warmup_iters with
  | error e => simp only [h1] at h; exact Except.noConfusion h
  | ok c1 =>
  simp only [h1] at h
  cases h2 : setPathT c1 ["runner", "max_epochs"]
      (.atom (.aint params.num_epochs)) with
  | error e => simp only [h2] at h; exact Except.noConfusion h
  | ok c2 =>
  simp only [h2] at h
  cases h3 : setPathT c2 ["optimizer", "lr"]
      (.atom (.arat params.learning_rate)) with
  | error e => simp only [h3] at h; exact Except.noConfusion h
  | ok c3 =>
  simp only [h3] at h
  have h4 : setPathT c3 ["data", "samples_per_gpu"]
      (.atom (.aint params.batch_size)) = .ok cfg' := h
  refine ⟨?_, ?_, ?_, ?_⟩
  · rw [setPathT_lookup_diverge h4 _ (by decide),
      setPathT_lookup_diverge h3 _ (by decide)]
    exact setPathT_lookup_self h2
  · rw [setPathT_lookup_diverge h4 _ (by decide)]
    exact setPathT_lookup_self h3
  · exact setPathT_lookup_self h4
  · intro hw
    simp only [update_learning_rate_schedule, bind, Except.bind] at h1
    cases hb : scheduleBase cfg custom getSchedFile
        params.learning_rate_schedule with
    | error e => simp only [hb] at h1; exact Except.noConfusion h1
    | ok cfg2 =>
    simp only [hb, if_pos hw] at h1
    cases w1 : setPathT cfg2 ["lr_config", "warmup"]
        (.atom (.astr "linear")) with
    | error e => simp only [w1] at h1; exact Except.noConfusion h1
    | ok d1 =>
    simp only [w1] at h1
    cases w2 : setPathT d1 ["lr_config", "warmup_ratio"]
        (.atom (.arat (1 / 3))) with
    | error e => simp only [w2] at h1; exact Except.noConfusion h1
    | ok d2 =>
    simp only [w2] at h1
    have w3 : setPathT d2 ["lr_config", "warmup_iters"]
        (.atom (.aint params.learning_rate_warmup_iters)) = .ok c1 := h1
    refine ⟨?_, ?_, ?_⟩
    · rw [setPathT_lookup_diverge h4 _ (by decide),
        setPathT_lookup_diverge h3 _ (by decide),
        setPathT_lookup_diverge h2 _ (by decide),
        setPathT_lookup_diverge w3 _ (by decide),
        setPathT_lookup_diverge w2 _ (by decide)]
      exact setPathT_lookup_self w1
    · rw [setPathT_lookup_diverge h4 _ (by decide),
        setPathT_lookup_diverge h3 _ (by decide),
        setPathT_lookup_diverge h2 _ (by decide),
        setPathT_lookup_diverge w3 _ (by decide)]
      exact setPathT_lookup_self w2
    · rw [setPathT_lookup_diverge h4 _ (by decide),
        setPathT_lookup_diverge h3 _ (by decide),
        setPathT_lookup_diverge h2 _ (by decide)]
      exact setPathT_lookup_self w3

/-- Witness for C7: a concrete configuration and a custom schedule with
positive warm-up iterations. -/
theorem C7_update_project_configuration_witness :
    ∃ c, update_project_configuration
        (.node (cfieldsOf
          [("runner", .node (cfieldsOf [("max_epochs", .atom (.aint 1))])),
           ("optimizer", .node .nil),
           ("data", .node .nil),
           ("lr_config", .node .nil)]))
        (cfieldsOf
          [("optimizer", .node (cfieldsOf [("momentum", .atom (.arat 0))])),
           ("lr_config", .node .nil)])
        (fun _ => .node .nil)
        ⟨"custom", 4, 5, 1 / 2, 8⟩ = .ok c ∧
      lookupPathT c ["runner", "max_epochs"] = some (.atom (.aint 5)) ∧
      lookupPathT c ["optimizer", "lr"] = some (.atom (.arat (1 / 2))) ∧
      lookupPathT c ["data", "samples_per_gpu"] = some (.atom (.aint 8)) ∧
      lookupPathT c ["lr_config", "warmup"] = some (.atom (.astr "linear")) ∧
      lookupPathT c ["lr_config", "warmup_ratio"]
        = some (.atom (.arat (1 / 3))) ∧
      lookupPathT c ["lr_config", "warmup_iters"] = some (.atom (.aint 4)) := by
  obtain ⟨p1, p2, p3, p4⟩ := C7_update_project_configuration
    (.node (cfieldsOf
      [("runner", .node (cfieldsOf [("max_epochs", .atom (.aint 1))])),
       ("optimizer", .node .nil),
       ("data", .node .nil),
       ("lr_config", .node .nil)]))
    (cfieldsOf
      [("optimizer", .node (cfieldsOf [("momentum", .atom (.arat 0))])),
       ("lr_config", .node .nil)])
    (fun _ => .node .nil)
    ⟨"custom", 4, 5, 1 / 2, 8⟩ _ rfl
  obtain ⟨p5, p6, p7⟩ := p4 (by decide)
  exact ⟨_, rfl, p1, p2, p3, p5, p6, p7⟩

/-! ### The task state (`MMObjectDetectionTask`)

The mutable attributes of the task object are modelled as an explicit
state record; framework calls that only produce numbers or freshly
built models are oracles passed in as arguments. -/

/-- A `torch.nn.Module` as far as the task observes it: a state dict of
named parameters (tensor contents abstracted to integers), the attached
`cfg`, and whether the module is in training mode (`eval()` clears
it). -/
structure TorchModel where
  weights : List (String × Int)
  cfg : CTree
  training_mode : Bool
  deriving DecidableEq

/-- An `sc_sdk` `Model` entity as far as the task observes it: the
serialized data blob.  `NullModel` is modelled as `none` at the
environment level. -/
structure ModelEntity where
  data : List CTok
  deriving DecidableEq, Repr

/-- The task environment: the saved model, if any
(`model != NullModel()`). -/
structure TaskEnv where
  model : Option ModelEntity
  deriving DecidableEq, Repr

/-- The mutable state of `MMObjectDetectionTask`. -/
structure TaskState where
  env : TaskEnv
  config : CTree
  train_model : TorchModel
  inference_model : Option TorchModel
  should_stop : Bool
  is_training : Bool
  scratch_space : String
  rounds : Nat
  files : List String
  deriving DecidableEq

/-- Keys of two state dicts coincide (as sets). -/
def stateDictKeysMatch (sd w : List (String × Int)) : Bool :=
  sd.all (fun kv => w.any (fun kv' => kv'.1 == kv.1)) &&
  w.all (fun kv => sd.any (fun kv' => kv'.1 == kv.1))

/-- Read a pickled state dict out of dict entries. -/
def stateDictOfFields : CFields → Option (List (String × Int))
  | .nil => some []
  | .cons k (.atom (.aint n)) fs =>
      match stateDictOfFields fs with
      | some t => some ((k, n) :: t)
      | none => none
  | .cons _ _ _ => none

/-- Read a pickled state dict out of a configuration-tree value. -/
def stateDictOfTree : CTree → Option (List (String × Int))
  | .node fs => stateDictOfFields fs
  | _ => none

/-- Store a state dict as a pickled dict value. -/
def treeOfStateDict : List (String × Int) → CFields
  | [] => .nil
  | (k, n) :: t => .cons k (.atom (.aint n)) (treeOfStateDict t)

/-- `module.load_state_dict(sd)` with the default `strict=True`:
fails (raising) unless the entries of `sd` are named tensors exactly
covering the module's parameters; on success the module carries the
loaded weights. -/
def load_state_dict (m : TorchModel) (sd : CTree) :
    Except String TorchModel :=
  match stateDictOfTree sd with
  | none => .error "invalid state dict"
  | some w =>
      if stateDictKeysMatch w m.weights then .ok { m with weights := w }
      else .error "unexpected or missing keys in state_dict"

/-- `_get_model_bytes`: serialize (`torch.save`) the dict holding the
train model's state dict under `state_dict` and the text serialization
of its configuration under `config`. -/
def get_model_bytes (m : TorchModel) : Except Unit (List CTok) :=
  match config_to_string m.cfg with
  | .ok cts =>
      .ok (encodeT (.node (.cons "state_dict"
        (.node (treeOfStateDict m.weights))
        (.cons "config" (.atom (.atext cts)) .nil))))
  | .error e => .error e

/-- `_get_model_from_bytes`: deserialize a blob (`torch.load`). -/
def get_model_from_bytes (blob : List CTok) : Option CTree :=
  decodeTop blob

/-- Claim C4: the persisted model artifact is self-contained — the
bytes produced by `_get_model_bytes` deserialize via
`_get_model_from_bytes` to a dict with exactly the keys `state_dict`
and `config`, where `state_dict` holds the train model's state dict and
`config` the text serialization of the train model's configuration. -/
theorem C4_model_bytes_roundtrip (m : TorchModel) (cts : List CTok)
    (h : config_to_string m.cfg = .ok cts) :
    ∃ blob, get_model_bytes m = .ok blob ∧
      ∃ art, get_model_from_bytes blob = some (.node art) ∧
        CFields.keys art = ["state_dict", "config"] ∧
        lookupF "state_dict" art = some (.node (treeOfStateDict m.weights)) ∧
        lookupF "config" art = some (.atom (.atext cts)) := by
  have hb : get_model_bytes m
      = .ok (encodeT (.node (.cons "state_dict"
          (.node (treeOfStateDict m.weights))
          (.cons "config" (.atom (.atext cts)) .nil)))) := by
    simp only [get_model_bytes, h]
  refine ⟨_, hb, _, decodeTop_encodeT _, rfl, ?_, ?_⟩
  · simp [lookupF]
  · simp [lookupF]

/-- Witness for C4: a concrete train model whose configuration
serializes successfully. -/
theorem C4_model_bytes_roundtrip_witness :
    ∃ blob, get_model_bytes
        { weights := [("w", 3)],
          cfg := .node (cfieldsOf
            [("data", .node (cfieldsOf
              [("test", .node (cfieldsOf [("ote_dataset", .atom .anone)])),
               ("train", .node (cfieldsOf [("ote_dataset", .atom .anone)])),
               ("val", .node (cfieldsOf [("ote_dataset", .atom .anone)]))])),
             ("labels", .lst .nil)]),
          training_mode := true } = .ok blob ∧
      ∃ art, get_model_from_bytes blob = some (.node art) ∧
        CFields.keys art = ["state_dict", "config"] ∧
        lookupF "state_dict" art
          = some (.node (treeOfStateDict [("w", 3)])) ∧
        lookupF "config" art ≠ none := by
  obtain ⟨blob, hb, art, ha, hk, hs, hc⟩ := C4_model_bytes_roundtrip
    { weights := [("w", 3)],
      cfg := .node (cfieldsOf
        [("data", .node (cfieldsOf
          [("test", .node (cfieldsOf [("ote_dataset", .atom .anone)])),
           ("train", .node (cfieldsOf [("ote_dataset", .atom .anone)])),
           ("val", .node (cfieldsOf [("ote_dataset", .atom .anone)]))])),
         ("labels", .lst .nil)]),
      training_mode := true } _ rfl
  exact ⟨blob, hb, art, ha, hk, hs, by rw [hc]; exact fun hcon => Option.noConfusion hcon⟩

/-- Python exceptions observed by the embedded code; `valueError` and
`runtimeError` carry their message and the message of the chained
cause. -/
inductive PyErr where
  | valueError : String → Option String → PyErr
  | attributeError : PyErr
  | keyError : String → PyErr
  | typeError : PyErr
  | runtimeError : String → Option String → PyErr
  | unpickleError : PyErr
  deriving DecidableEq, Repr

/-- The single user-facing message of `load_model` failures. -/
def invalidModelMsg : String :=
  "Could not load the saved model. The model file structure is invalid."

/-- The body of the `try` block of `load_model`: index the deserialized
dict at `state_dict` and load it into the freshly built model. -/
def loadArtifactStateDict (tm : TorchModel) (mdf : CFields) :
    Except String TorchModel :=
  match lookupF "state_dict" mdf with
  | none => .error "KeyError: state_dict"
  | some sdTree => load_state_dict tm sdTree

/-- `load_model`: install the new task environment; if it holds a saved
model, deserialize its blob, rebuild a fresh model from the stored
configuration (`createModel cfg from_scratch` is the
`_create_model` oracle), and load the stored state dict into it —
wrapping any failure of that load into the single user-facing
`ValueError` — then set both `inference_model` and `train_model` from
the loaded model, attach the configurations, and put the inference
model in eval mode.  Without a saved model, build a fresh
ImageNet-pretrained model instead. -/
def load_model (s : TaskState) (env : TaskEnv)
    (createModel : CTree → Bool → TorchModel) : Except PyErr TaskState :=
  let s := { s with env := env }
  match env.model with
  | some m =>
      match get_model_from_bytes m.data with
      | none => .error .unpickleError
      | some modelData =>
          match modelData with
          | .node mdf =>
              match lookupF "config" mdf with
              | none => .error (.keyError "config")
              | some (.atom (.atext cts)) =>
                  match config_from_string cts with
                  | none => .error .typeError
                  | some model_config =>
                      let torch_model := createModel model_config true
                      match loadArtifactStateDict torch_model mdf with
                      | .error cause =>
                          .error (.valueError invalidModelMsg (some cause))
                      | .ok loaded =>
                          .ok { s with
                            inference_model := some
                              { loaded with cfg := model_config,
                                            training_mode := false },
                            train_model := { loaded with cfg := s.config } }
              | some _ => .error .typeError
          | _ => .error .typeError
  | none =>
      let torch_model := createModel s.config false
      .ok { s with
        train_model := { torch_model with cfg := s.config },
        inference_model := some
          { torch_model with cfg := s.config, training_mode := false } }

/-- Claim C1: for a saved model in the task environment, if loading the
deserialized state dict into the freshly built model fails for any
reason, `load_model` raises exactly one user-facing `ValueError` with
the invalid-model-file message, chained from the underlying failure;
if the state dict loads successfully no such error is raised and both
`inference_model` and `train_model` are set from the loaded weights
(the inference model in eval mode with the stored configuration, the
train model with the configuration manager's configuration). -/
theorem C1_load_model_error_surface (s : TaskState) (env : TaskEnv)
    (createModel : CTree → Bool → TorchModel) (m : ModelEntity)
    (mdf : CFields) (cts : List CTok) (model_config : CTree)
    (hm : env.model = some m)
    (hdata : get_model_from_bytes m.data = some (.node mdf))
    (hcfg : lookupF "config" mdf = some (.atom (.atext cts)))
    (hparse : config_from_string cts = some model_config) :
    (∀ cause,
      loadArtifactStateDict (createModel model_config true) mdf
        = .error cause →
      load_model s env createModel
        = .error (.valueError invalidModelMsg (some cause))) ∧
    (∀ loaded,
      loadArtifactStateDict (createModel model_config true) mdf
        = .ok loaded →
      load_model s env createModel = .ok
        { s with env := env,
                 inference_model := some
                   { loaded with cfg := model_config,
                                 training_mode := false },
                 train_model :=
                   { loaded with cfg := s.config } }) := by
  constructor
  · intro cause hfail
    simp only [load_model, hm, hdata, hcfg, hparse, hfail]
  · intro loaded hok
    simp only [load_model, hm, hdata, hcfg, hparse, hok]

/-- Witness for C1: a concrete saved artifact that loads successfully,
and one whose state dict names the wrong parameter and is surfaced as
the single user-facing `ValueError`. -/
theorem C1_load_model_error_surface_witness :
    (∃ s', load_model
        { env := { model := none }, config := .node .nil,
          train_model := { weights := [], cfg := .node .nil,
                           training_mode := true },
          inference_model := none, should_stop := false,
          is_training := false, scratch_space := "scratch", rounds := 0,
          files := [] }
        { model := some { data := encodeT (.node (.cons "state_dict"
            (.node (.cons "w" (.atom (.aint 3)) .nil))
            (.cons "config" (.atom (.atext (encodeT
              (.node (.cons "model" (.atom (.astr "ssd")) .nil)))))
             .nil))) } }
        (fun c _ => { weights := [("w", 0)], cfg := c,
                      training_mode := true }) = .ok s' ∧
      s'.train_model.weights = [("w", 3)] ∧
      ∃ im, s'.inference_model = some im ∧ im.weights = [("w", 3)] ∧
        im.training_mode = false) ∧
    load_model
        { env := { model := none }, config := .node .nil,
          train_model := { weights := [], cfg := .node .nil,
                           training_mode := true },
          inference_model := none, should_stop := false,
          is_training := false, scratch_space := "scratch", rounds := 0,
          files := [] }
        { model := some { data := encodeT (.node (.cons "state_dict"
            (.node (.cons "v" (.atom (.aint 1)) .nil))
            (.cons "config" (.atom (.atext (encodeT
              (.node (.cons "model" (.atom (.astr "ssd")) .nil)))))
             .nil))) } }
        (fun c _ => { weights := [("w", 0)], cfg := c,
                      training_mode := true })
      = .error (.valueError invalidModelMsg
          (some "unexpected or missing keys in state_dict")) := by
  constructor
  · obtain ⟨h1, h2⟩ := C1_load_model_error_surface
      { env := { model := none }, config := .node .nil,
        train_model := { weights := [], cfg := .node .nil,
                         training_mode := true },
        inference_model := none, should_stop := false,
        is_training := false, scratch_space := "scratch", rounds := 0,
        files := [] }
      { model := some { data := encodeT (.node (.cons "state_dict"
          (.node (.cons "w" (.atom (.aint 3)) .nil))
          (.cons "config" (.atom (.atext (encodeT
            (.node (.cons "model" (.atom (.astr "ssd")) .nil)))))
           .nil))) } }
      (fun c _ => { weights := [("w", 0)], cfg := c,
                    training_mode := true })
      _ _ _ _ rfl rfl rfl rfl
    exact ⟨_, h2 _ rfl, rfl, _, rfl, rfl, rfl⟩
  · obtain ⟨h1, h2⟩ := C1_load_model_error_surface
      { env := { model := none }, config := .node .nil,
        train_model := { weights := [], cfg := .node .nil,
                         training_mode := true },
        inference_model := none, should_stop := false,
        is_training := false, scratch_space := "scratch", rounds := 0,
        files := [] }
      { model := some { data := encodeT (.node (.cons "state_dict"
          (.node (.cons "v" (.atom (.aint 1)) .nil))
          (.cons "config" (.atom (.atext (encodeT
            (.node (.cons "model" (.atom (.astr "ssd")) .nil)))))
           .nil))) } }
      (fun c _ => { weights := [("w", 0)], cfg := c,
                    training_mode := true })
      _ _ _ _ rfl rfl rfl rfl
    exact h1 _ rfl

/-- The OTE dataset handed to `train`/`analyse`, reduced to the identity
of its three subsets (`get_subset`). -/
structure OTEDataset where
  testId : Nat
  trainId : Nat
  valId : Nat
  deriving DecidableEq, Repr

/-- `TrainParameters` as read by `train`. -/
structure TrainParams where
  train_on_empty_model : Bool
  deriving DecidableEq, Repr

/-- `update_dataset_subsets` applied to a configuration: store the three
dataset subsets under `data.{test,train,val}.ote_dataset`. -/
def update_dataset_subsets (cfg : CTree) (ds : OTEDataset) :
    Except Unit CTree := do
  let c1 ← setPathT cfg ["data", "test", "ote_dataset"]
    (.atom (.adataset ds.testId))
  let c2 ← setPathT c1 ["data", "train", "ote_dataset"]
    (.atom (.adataset ds.trainId))
  setPathT c2 ["data", "val", "ote_dataset"] (.atom (.adataset ds.valId))

/-- Record a path as existing in the tracked file system (`open(p, 'a')`
creates the file or leaves an existing one). -/
def insertFile (p : String) (fs : List String) : List String :=
  if p ∈ fs then fs else p :: fs

/-- Top-level `config.k = v` (`Config.__setattr__` writes into the
underlying dict, creating the key if needed). -/
def setTop (cfg : CTree) (k : String) (v : CTree) : Except Unit CTree :=
  match cfg with
  | .node fs => .ok (.node (updateF k v fs))
  | _ => .error ()

/-- `_create_training_checkpoint_dirs`: create the next round's
checkpoint directory, point `config.work_dir` at it, set
`config.runner.meta.exp_name`, and save the configuration to
`config.py` in that directory.  Returns the new state and the
checkpoint directory. -/
def create_training_checkpoint_dirs (s : TaskState) :
    Except Unit (TaskState × String) := do
  let wd := s.scratch_space ++ "/checkpoints_round_" ++ toString s.rounds
  let c1 ← setTop s.config "work_dir" (.atom (.astr wd))
  let c2 ← setPathT c1 ["runner", "meta", "exp_name"]
    (.atom (.astr ("train_round_" ++ toString s.rounds)))
  let _ ← config_to_string c2
  let s' : TaskState :=
    { s with
      config := c2
      rounds := s.rounds + 1
      files := insertFile (wd ++ "/config.py") (insertFile wd s.files) }
  .ok (s', wd)

/-- `_is_train_from_scratch`: keep hold of the old training model and,
when training on an empty model was requested, replace the training
model by a freshly built one. -/
def is_train_from_scratch (s : TaskState) (tp : Option TrainParams)
    (createModel : CTree → Bool → TorchModel) :
    TaskState × TorchModel × Bool :=
  let old := s.train_model
  match tp with
  | some p =>
      if p.train_on_empty_model then
        ({ s with train_model := createModel s.config true }, old, true)
      else (s, old, false)
  | none => (s, old, false)

/-- `_do_pre_evaluation`: when an inference model exists, update its
data configuration and evaluate it (the mAP score is the oracle
`score`); otherwise report a zero score and no comparison. -/
def do_pre_evaluation (s : TaskState) (ds : OTEDataset) (score : ℚ) :
    Except Unit (TaskState × ℚ × Bool) :=
  match s.inference_model with
  | some im =>
      match update_dataset_subsets im.cfg ds with
      | .ok imcfg =>
          .ok ({ s with inference_model := some { im with cfg := imcfg } },
            score, true)
      | .error e => .error e
  | none => .ok (s, 0, false)

/-- `_do_model_training`: mark the task as training, refresh the train
model's configuration and run `train_detector`, which updates the train
model's weights in place (the oracle `trainedModel`). -/
def do_model_training (s : TaskState)
    (trainedModel : TorchModel → TorchModel) : TaskState :=
  { s with is_training := true,
           train_model := trainedModel
             { s.train_model with cfg := s.config } }

/-- Oracles for the framework calls made during one training round.
`stop1` and `stop2` are the values the cooperative `should_stop` flag
holds when the two cancellation check points read it (the flag can be
set concurrently by `cancel_training`). -/
structure TrainOracles where
  stop1 : Bool
  stop2 : Bool
  createModel : CTree → Bool → TorchModel
  preEvalScore : ℚ
  trainedModel : TorchModel → TorchModel
  bestScore : ℚ
  bestWeights : CTree

/-- `train`: configure datasets, create the checkpoint directory,
optionally reset the model for training from scratch, pre-evaluate,
check the cancellation flag, train, check the flag again, load the best
checkpoint, and persist a new model when it improved (or none existed).
Returns the final state and the returned `task_environment.model`. -/
def train (s0 : TaskState) (ds : OTEDataset) (tp : Option TrainParams)
    (o : TrainOracles) : Except PyErr (TaskState × Option ModelEntity) := do
  let c1 ← (update_dataset_subsets s0.config ds).mapError
    (fun _ => PyErr.attributeError)
  let s := { s0 with config := c1 }
  let pr ← (create_training_checkpoint_dirs s).mapError
    (fun _ => PyErr.attributeError)
  let s := pr.1
  let sc := is_train_from_scratch s tp o.createModel
  let s := sc.1
  let old_train_model := sc.2.1
  let train_from_scratch := sc.2.2
  let pe ← (do_pre_evaluation s ds o.preEvalScore).mapError
    (fun _ => PyErr.attributeError)
  let s := pe.1
  let pretraining_performance := pe.2.1
  let compare_performance := pe.2.2
  let s := { s with should_stop := o.stop1 }
  if s.should_stop then
    let s := { s with should_stop := false }
    let s := if train_from_scratch then
        { s with train_model := old_train_model }
      else s
    pure (s, s.env.model)
  else
    let s := do_model_training s o.trainedModel
    let s := { s with should_stop := o.stop2 }
    if s.should_stop then
      let s := { s with should_stop := false,
                        train_model := old_train_model }
      pure (s, s.env.model)
    else do
      let best ← (load_state_dict s.train_model o.bestWeights).mapError
        (fun e => PyErr.runtimeError e none)
      let s := { s with train_model := best }
      let improved := compare_performance &&
        decide (o.bestScore > pretraining_performance)
      if improved || s.env.model.isNone then do
        let s := { s with train_model :=
          { s.train_model with cfg := s.config } }
        let blob ← (get_model_bytes s.train_model).mapError
          (fun _ => PyErr.typeError)
        let s := { s with
          env := { s.env with model := some { data := blob } },
          inference_model := some
            { s.train_model with training_mode := false } }
        let s := { s with is_training := false }
        pure (s, s.env.model)
      else
        let s := if train_from_scratch then
            { s with train_model := old_train_model }
          else s
        let s := { s with is_training := false }
        pure (s, s.env.model)

theorem create_training_checkpoint_dirs_spec {s s2 : TaskState}
    {wd : String} (h : create_training_checkpoint_dirs s = .ok (s2, wd)) :
    s2.env = s.env ∧ s2.train_model = s.train_model ∧
    s2.inference_model = s.inference_model ∧
    s2.should_stop = s.should_stop := by
  simp only [create_training_checkpoint_dirs, bind, Except.bind] at h
  cases h1 : setTop s.config "work_dir"
      (.atom (.astr (s.scratch_space ++ "/checkpoints_round_"
        ++ toString s.rounds))) with
  | error e => simp only [h1] at h; exact Except.noConfusion h
  | ok c1 =>
  simp only [h1] at h
  cases h2 : setPathT c1 ["runner", "meta", "exp_name"]
      (.atom (.astr ("train_round_" ++ toString s.rounds))) with
  | error e => simp only [h2] at h; exact Except.noConfusion h
  | ok c2 =>
  simp only [h2] at h
  cases h3 : config_to_string c2 with
  | error e => simp only [h3] at h; exact Except.noConfusion h
  | ok cts =>
  simp only [h3, Except.ok.injEq, Prod.mk.injEq] at h
  obtain ⟨hs, _⟩ := h
  subst hs
  exact ⟨rfl, rfl, rfl, rfl⟩

theorem is_train_from_scratch_spec (s : TaskState) (tp : Option TrainParams)
    (cm : CTree → Bool → TorchModel) :
    (is_train_from_scratch s tp cm).1.env = s.env ∧
    (is_train_from_scratch s tp cm).1.inference_model
      = s.inference_model ∧
    (is_train_from_scratch s tp cm).2.1 = s.train_model ∧
    ((is_train_from_scratch s tp cm).2.2 = false →
      (is_train_from_scratch s tp cm).1.train_model = s.train_model) := by
  cases tp with
  | none => simp [is_train_from_scratch]
  | some p =>
      by_cases hp : p.train_on_empty_model = true <;>
        simp [is_train_from_scratch, hp]

theorem do_pre_evaluation_spec {s s4 : TaskState} {ds : OTEDataset}
    {sc q : ℚ} {b : Bool}
    (h : do_pre_evaluation s ds sc = .ok (s4, q, b)) :
    s4.env = s.env ∧ s4.train_model = s.train_model := by
  cases him : s.inference_model with
  | none =>
      simp only [do_pre_evaluation, him, Except.ok.injEq,
        Prod.mk.injEq] at h
      obtain ⟨hs, _⟩ := h
      subst hs
      exact ⟨rfl, rfl⟩
  | some im =>
      simp only [do_pre_evaluation, him] at h
      cases hc : update_dataset_subsets im.cfg ds with
      | error e => simp only [hc] at h; exact Except.noConfusion h
      | ok imcfg =>
          simp only [hc, Except.ok.injEq, Prod.mk.injEq] at h
          obtain ⟨hs, _⟩ := h
          subst hs
          exact ⟨rfl, rfl⟩

/-- Claim C2: if the cooperative cancellation flag `should_stop` is set
at either check point of `train` (after pre-evaluation and before
training, or after training completes), then `train` resets
`should_stop` to `False`, returns the pre-existing
`task_environment.model` unchanged (and the environment itself is
untouched, so no new model is persisted), and the train model ends up
equal to the saved old train model: restored explicitly at the
post-training check, and at the pre-training check restored when
training was from scratch and simply never replaced otherwise. -/
theorem C2_train_cancellation (s0 : TaskState) (ds : OTEDataset)
    (tp : Option TrainParams) (o : TrainOracles) (s' : TaskState)
    (ret : Option ModelEntity)
    (h : train s0 ds tp o = .ok (s', ret))
    (hstop : o.stop1 = true ∨ o.stop2 = true) :
    s'.should_stop = false ∧ ret = s0.env.model ∧ s'.env = s0.env ∧
    s'.train_model = s0.train_model := by
  simp only [train, bind, Except.bind] at h
  cases h1 : update_dataset_subsets s0.config ds with
  | error e =>
      simp only [h1, Except.mapError] at h
      exact Except.noConfusion h
  | ok c1 =>
  simp only [h1, Except.mapError] at h
  cases h2 : create_training_checkpoint_dirs { s0 with config := c1 } with
  | error e =>
      simp only [h2, Except.mapError] at h
      exact Except.noConfusion h
  | ok pr =>
  simp only [h2, Except.mapError] at h
  obtain ⟨s2, wd⟩ := pr
  obtain ⟨e2env, e2tm, e2im, _⟩ := create_training_checkpoint_dirs_spec h2
  obtain ⟨e3env, e3im, e3old, e3keep⟩ :=
    is_train_from_scratch_spec s2 tp o.createModel
  cases h3 : do_pre_evaluation (is_train_from_scratch s2 tp o.createModel).1
      ds o.preEvalScore with
  | error e =>
      simp only [h3, Except.mapError] at h
      exact Except.noConfusion h
  | ok pe =>
  simp only [h3, Except.mapError] at h
  obtain ⟨s4, q, b⟩ := pe
  obtain ⟨e4env, e4tm⟩ := do_pre_evaluation_spec h3
  cases hs1 : o.stop1 with
  | true =>
      simp only [hs1] at h
      simp only [if_true, pure, Except.pure, Except.ok.injEq,
        Prod.mk.injEq] at h
      obtain ⟨hX, hret⟩ := h
      subst hX
      subst hret
      by_cases hts : (is_train_from_scratch s2 tp o.createModel).2.2 = true
      · simp only [hts, if_true]
        refine ⟨by trivial, ?_, ?_, ?_⟩
        · simp only [e4env, e3env, e2env]
        · simp only [e4env, e3env, e2env]
        · simp only [e3old, e2tm]
      · simp only [hts, if_false, Bool.false_eq_true]
        refine ⟨by trivial, ?_, ?_, ?_⟩
        · simp only [e4env, e3env, e2env]
        · simp only [e4env, e3env, e2env]
        · simp only [e4tm]
          rw [e3keep (by simpa using hts), e2tm]
  | false =>
      have hs2 : o.stop2 = true := by
        rcases hstop with hx | hx
        · rw [hs1] at hx; exact absurd hx (by decide)
        · exact hx
      simp only [hs1, hs2] at h
      simp only [Bool.false_eq_true, if_false, if_true, pure, Except.pure,
        Except.ok.injEq, Prod.mk.injEq] at h
      obtain ⟨hX, hret⟩ := h
      subst hX
      subst hret
      refine ⟨by trivial, ?_, ?_, ?_⟩
      · simp only [do_model_training, e4env, e3env, e2env]
      · simp only [do_model_training, e4env, e3env, e2env]
      · simp only [e3old, e2tm]

/-- Witness for C2: a concrete training round cancelled at the first
check point returns the pre-existing (absent) model, clears the flag
and keeps the train model. -/
theorem C2_train_cancellation_witness :
    ∃ s' ret, train
        { env := { model := none },
          config := .node (cfieldsOf
            [("data", .node (cfieldsOf
              [("test", .node (cfieldsOf [("ote_dataset", .atom .anone)])),
               ("train", .node (cfieldsOf [("ote_dataset", .atom .anone)])),
               ("val", .node (cfieldsOf [("ote_dataset", .atom .anone)]))])),
             ("runner", .node (cfieldsOf [("meta", .node .nil)])),
             ("labels", .lst .nil)]),
          train_model := { weights := [("w", 0)], cfg := .node .nil,
                           training_mode := true },
          inference_model := none, should_stop := false,
          is_training := false, scratch_space := "scratch", rounds := 0,
          files := [] }
        ⟨1, 2, 3⟩ none
        { stop1 := true, stop2 := false,
          createModel := fun c _ =>
            { weights := [], cfg := c, training_mode := true },
          preEvalScore := 0, trainedModel := id, bestScore := 0,
          bestWeights := .node .nil } = .ok (s', ret) ∧
      s'.should_stop = false ∧ ret = none ∧
      s'.train_model = { weights := [("w", 0)], cfg := .node .nil,
                         training_mode := true } := by
  obtain ⟨ha, hb, hc, hd⟩ := C2_train_cancellation
      { env := { model := none },
        config := .node (cfieldsOf
          [("data", .node (cfieldsOf
            [("test", .node (cfieldsOf [("ote_dataset", .atom .anone)])),
             ("train", .node (cfieldsOf [("ote_dataset", .atom .anone)])),
             ("val", .node (cfieldsOf [("ote_dataset", .atom .anone)]))])),
           ("runner", .node (cfieldsOf [("meta", .node .nil)])),
           ("labels", .lst .nil)]),
        train_model := { weights := [("w", 0)], cfg := .node .nil,
                         training_mode := true },
        inference_model := none, should_stop := false,
        is_training := false, scratch_space := "scratch", rounds := 0,
        files := [] }
      ⟨1, 2, 3⟩ none
      { stop1 := true, stop2 := false,
        createModel := fun c _ =>
          { weights := [], cfg := c, training_mode := true },
        preEvalScore := 0, trainedModel := id, bestScore := 0,
        bestWeights := .node .nil } _ _ rfl (Or.inl rfl)
  exact ⟨_, _, rfl, ha, hb, hd⟩

theorem mem_insertFile (f p : String) (fs : List String) :
    f ∈ insertFile p fs ↔ f = p ∨ f ∈ fs := by
  by_cases hp : p ∈ fs
  · simp only [insertFile, if_pos hp]
    constructor
    · exact Or.inr
    · rintro (rfl | hf)
      · exact hp
      · exact hf
  · simp [insertFile, if_neg hp]

/-- `cancel_training`: set the cooperative `should_stop` flag, then
create (or leave existing) the `.stop_training` sentinel file in the
configuration's current `work_dir`. -/
def cancel_training (s : TaskState) : Except PyErr TaskState :=
  let s1 := { s with should_stop := true }
  match lookupPathT s1.config ["work_dir"] with
  | some (.atom (.astr wd)) =>
      .ok { s1 with files := insertFile (wd ++ "/.stop_training") s1.files }
  | _ => .error .attributeError

/-- Claim C6: `cancel_training` sets `should_stop` to `True` and
creates (or leaves existing) the `.stop_training` sentinel in the
configuration's current `work_dir`, and performs no other state change:
environment, configuration, both models, training flag, scratch space,
round counter and all other files are untouched. -/
theorem C6_cancel_training (s : TaskState) (wd : String)
    (hwd : lookupPathT s.config ["work_dir"] = some (.atom (.astr wd))) :
    ∃ s', cancel_training s = .ok s' ∧
      s'.should_stop = true ∧
      (wd ++ "/.stop_training") ∈ s'.files ∧
      s'.env = s.env ∧ s'.config = s.config ∧
      s'.train_model = s.train_model ∧
      s'.inference_model = s.inference_model ∧
      s'.is_training = s.is_training ∧
      s'.scratch_space = s.scratch_space ∧
      s'.rounds = s.rounds ∧
      (∀ f, f ∈ s'.files ↔ f = wd ++ "/.stop_training" ∨ f ∈ s.files) := by
  have hrun : cancel_training s = .ok
      { s with
        should_stop := true
        files := insertFile (wd ++ "/.stop_training") s.files } := by
    simp only [cancel_training, hwd]
  refine ⟨_, hrun, rfl, ?_, rfl, rfl, rfl, rfl, rfl, rfl, rfl, ?_⟩
  · exact (mem_insertFile _ _ _).mpr (Or.inl rfl)
  · intro f
    exact mem_insertFile f _ _

/-- Witness for C6: a concrete task state whose configuration carries a
work directory. -/
theorem C6_cancel_training_witness :
    ∃ s', cancel_training
        { env := { model := none },
          config := .node (cfieldsOf
            [("work_dir", .atom (.astr "scratch/checkpoints_round_0"))]),
          train_model := { weights := [], cfg := .node .nil,
                           training_mode := true },
          inference_model := none, should_stop := false,
          is_training := false, scratch_space := "scratch", rounds := 0,
          files := [] } = .ok s' ∧
      s'.should_stop = true ∧
      ("scratch/checkpoints_round_0/.stop_training") ∈ s'.files ∧
      s'.is_training = false := by
  obtain ⟨s', h1, h2, h3, _, _, _, _, h8, _⟩ := C6_cancel_training
    { env := { model := none },
      config := .node (cfieldsOf
        [("work_dir", .atom (.astr "scratch/checkpoints_round_0"))]),
      train_model := { weights := [], cfg := .node .nil,
                       training_mode := true },
      inference_model := none, should_stop := false,
      is_training := false, scratch_space := "scratch", rounds := 0,
      files := [] }
    "scratch/checkpoints_round_0" rfl
  exact ⟨s', h1, h2, h3, h8⟩

/-- An `OpenVINOModel` entity: the source model, the URLs of the saved
`.bin` and `.xml` files, and the precision tag. -/
structure OpenVINOModelEnt where
  model : Option ModelEntity
  openvino_bin_url : String
  openvino_xml_url : String
  precision : String
  deriving DecidableEq, Repr

/-- `str.endswith(suffix)`, as an executable suffix check on the
character data. -/
def strEndsWith (s suffix : String) : Bool :=
  List.isSuffixOf suffix.data s.data

/-- The body of the `try` block of `_generate_openvino_model`: run the
export (the oracle `exportFiles` lists the files the export wrote, or
describes its failure), pick the first `.bin` and `.xml` files
(`IndexError` when absent), and save each to the binary repo (the
oracle `saveFile` returns the stored URL or fails). -/
def exportPipeline (exportFiles : Except String (List String))
    (saveFile : String → Except String String) :
    Except String (String × String) := do
  let files ← exportFiles
  let binFile ← match (files.filter (fun f => strEndsWith f ".bin")).head? with
    | some f => .ok f
    | none => .error "IndexError: list index out of range"
  let binUrl ← saveFile binFile
  let xmlFile ← match (files.filter (fun f => strEndsWith f ".xml")).head? with
    | some f => .ok f
    | none => .error "IndexError: list index out of range"
  let xmlUrl ← saveFile xmlFile
  .ok (binUrl, xmlUrl)

/-- `_generate_openvino_model`: wrap any exception of the export
pipeline into `RuntimeError("Optimization was unsuccessful.")` chained
from it; on success build the FP32 `OpenVINOModel` from the saved
URLs. -/
def generate_openvino_model (s : TaskState)
    (exportFiles : Except String (List String))
    (saveFile : String → Except String String) :
    Except PyErr OpenVINOModelEnt :=
  match exportPipeline exportFiles saveFile with
  | .error e =>
      .error (.runtimeError "Optimization was unsuccessful." (some e))
  | .ok urls =>
      .ok { model := s.env.model, openvino_bin_url := urls.1,
            openvino_xml_url := urls.2, precision := "FP32" }

/-- `optimize_loaded_model`: the list holding the one generated
OpenVINO model. -/
def optimize_loaded_model (s : TaskState)
    (exportFiles : Except String (List String))
    (saveFile : String → Except String String) :
    Except PyErr (List OpenVINOModelEnt) :=
  match generate_openvino_model s exportFiles saveFile with
  | .ok m => .ok [m]
  | .error e => .error e

/-- Claim C5: every exception raised during model export or collection
of the exported files inside `_generate_openvino_model` is wrapped and
re-raised as `RuntimeError("Optimization was unsuccessful.")` chained
from the original exception; on success `optimize_loaded_model` returns
the non-empty list holding exactly one `OpenVINOModel`. -/
theorem C5_optimize_error_wrap (s : TaskState)
    (exportFiles : Except String (List String))
    (saveFile : String → Except String String) :
    (∀ e, exportPipeline exportFiles saveFile = .error e →
      generate_openvino_model s exportFiles saveFile
        = .error (.runtimeError "Optimization was unsuccessful." (some e))) ∧
    (∀ urls, exportPipeline exportFiles saveFile = .ok urls →
      optimize_loaded_model s exportFiles saveFile
        = .ok [{ model := s.env.model, openvino_bin_url := urls.1,
                 openvino_xml_url := urls.2, precision := "FP32" }]) := by
  constructor
  · intro e he
    simp only [generate_openvino_model, he]
  · intro urls hu
    simp only [optimize_loaded_model, generate_openvino_model, hu]

/-- Witness for C5: a failing export is wrapped into the generic
runtime failure, and a successful export yields the one-element list of
OpenVINO models. -/
theorem C5_optimize_error_wrap_witness :
    generate_openvino_model
        { env := { model := none }, config := .node .nil,
          train_model := { weights := [], cfg := .node .nil,
                           training_mode := true },
          inference_model := none, should_stop := false,
          is_training := false, scratch_space := "scratch", rounds := 0,
          files := [] }
        (.error "export_model failed") (fun f => .ok (f ++ ".url"))
      = .error (.runtimeError "Optimization was unsuccessful."
          (some "export_model failed")) ∧
    optimize_loaded_model
        { env := { model := none }, config := .node .nil,
          train_model := { weights := [], cfg := .node .nil,
                           training_mode := true },
          inference_model := none, should_stop := false,
          is_training := false, scratch_space := "scratch", rounds := 0,
          files := [] }
        (.ok ["model.bin", "model.xml"]) (fun f => .ok (f ++ ".url"))
      = .ok [{ model := none, openvino_bin_url := "model.bin.url",
               openvino_xml_url := "model.xml.url",
               precision := "FP32" }] := by
  constructor
  · exact (C5_optimize_error_wrap
      { env := { model := none }, config := .node .nil,
        train_model := { weights := [], cfg := .node .nil,
                         training_mode := true },
        inference_model := none, should_stop := false,
        is_training := false, scratch_space := "scratch", rounds := 0,
        files := [] }
      (.error "export_model failed") (fun f => .ok (f ++ ".url"))).1
      "export_model failed" rfl
  · exact (C5_optimize_error_wrap
      { env := { model := none }, config := .node .nil,
        train_model := { weights := [], cfg := .node .nil,
                         training_mode := true },
        inference_model := none, should_stop := false,
        is_training := false, scratch_space := "scratch", rounds := 0,
        files := [] }
      (.ok ["model.bin", "model.xml"]) (fun f => .ok (f ++ ".url"))).2
      ("model.bin.url", "model.xml.url") rfl

/-! ### `get_annotation_mmdet_format` (dataset adapter) -/

/-- A scored label attached to a shape. -/
structure ScoredLabelM where
  name : String
  probability : ℚ
  deriving DecidableEq, Repr

/-- A shape of a dataset item's annotation: a `Box` (relative corner
coordinates and labels) or another kind of shape (ignored by the
adapter). -/
inductive ShapeM where
  | box : ℚ → ℚ → ℚ → ℚ → List ScoredLabelM → ShapeM
  | other : Nat → ShapeM
  deriving DecidableEq, Repr

/-- A dataset item: image size and annotation shapes. -/
structure DatasetItemM where
  width : ℚ
  height : ℚ
  shapes : List ShapeM
  deriving DecidableEq, Repr

/-- The annotation dict in mmdetection format. -/
structure AnnInfo where
  bboxes : List (List ℚ)
  labels : List Int
  deriving DecidableEq, Repr

/-- Python `list.index`: the position of the first occurrence, if
any (`ValueError` otherwise). -/
def pyIndex (xs : List String) (x : String) : Option Nat :=
  match xs with
  | [] => none
  | y :: t => if y = x then some 0 else (pyIndex t x).map (· + 1)

/-- The loop of `get_annotation_mmdet_format` over the item's shapes:
non-`Box` shapes are skipped; each `Box` appends its scaled corner
coordinates; a labelled box appends the index of its first label's name
in the label list (`ValueError`, modelled as an error, when absent) and
records that the last-visited box was labelled; an unlabelled box only
records that it was empty. -/
def annLoop (width height : ℚ) (label_list : List String) :
    List ShapeM → List (List ℚ) → List Int → Option Bool →
    Except Unit (List (List ℚ) × List Int × Option Bool)
  | [], bbs, lbs, emp => .ok (bbs, lbs, emp)
  | .other _ :: rest, bbs, lbs, emp =>
      annLoop width height label_list rest bbs lbs emp
  | .box x1 y1 x2 y2 ls :: rest, bbs, lbs, _emp =>
      let bbs' := bbs ++ [[x1 * width, y1 * height, x2 * width, y2 * height]]
      match ls with
      | [] => annLoop width height label_list rest bbs' lbs (some true)
      | l :: _ =>
          match pyIndex label_list l.name with
          | some i => annLoop width height label_list rest bbs'
              (lbs ++ [Int.ofNat i]) (some false)
          | none => .error ()

/-- `get_annotation_mmdet_format`: run the loop and return the
collected boxes and labels, except in the sentinel case (exactly one
collected box and the last-visited box unlabelled — the short-circuit
of the Python `and` guarantees the flag is bound there), which returns
the `[[0, 0, 0, 0]]` / `[-1]` sentinel annotation. -/
def get_annotation_mmdet_format (item : DatasetItemM)
    (label_list : List String) : Except Unit AnnInfo := do
  let res ← annLoop item.width item.height label_list item.shapes [] [] none
  if res.1.length = 1 ∧ res.2.2.getD false = true then
    .ok { bboxes := [[0, 0, 0, 0]], labels := [-1] }
  else
    .ok { bboxes := res.1, labels := res.2.1 }

/-- The `Box` shapes of an item, in order. -/
def boxesOf (shapes : List ShapeM) :
    List (ℚ × ℚ × ℚ × ℚ × List ScoredLabelM) :=
  shapes.filterMap (fun sh =>
    match sh with
    | .box x1 y1 x2 y2 ls => some (x1, y1, x2, y2, ls)
    | .other _ => none)

/-- One row per `Box`: its corners scaled by image width and height. -/
def scaledRows (width height : ℚ) (shapes : List ShapeM) :
    List (List ℚ) :=
  (boxesOf shapes).map (fun b =>
    [b.1 * width, b.2.1 * height, b.2.2.1 * width, b.2.2.2.1 * height])

/-- One entry per labelled `Box`: the index of its first label's name. -/
def labelEntries (label_list : List String) (shapes : List ShapeM) :
    List Int :=
  (boxesOf shapes).filterMap (fun b =>
    match b.2.2.2.2 with
    | [] => none
    | l :: _ => (pyIndex label_list l.name).map Int.ofNat)

/-- Whether the last-visited `Box` carried no labels (`none` when the
item has no boxes at all). -/
def lastBoxEmptyLabel (shapes : List ShapeM) : Option Bool :=
  match (boxesOf shapes).getLast? with
  | some b => some b.2.2.2.2.isEmpty
  | none => none

/-- The sentinel condition: exactly one `Box` and the last-visited
`Box` unlabelled. -/
def sentinelCase (shapes : List ShapeM) : Bool :=
  ((boxesOf shapes).length == 1) &&
  (match (boxesOf shapes).getLast? with
   | some b => b.2.2.2.2.isEmpty
   | none => false)

theorem lastBoxEmptyLabel_cons_other (n : Nat) (rest : List ShapeM) :
    lastBoxEmptyLabel (.other n :: rest) = lastBoxEmptyLabel rest := by
  simp only [lastBoxEmptyLabel, boxesOf, List.filterMap_cons]

theorem lastBoxEmptyLabel_cons_box (x1 y1 x2 y2 : ℚ)
    (ls : List ScoredLabelM) (rest : List ShapeM) :
    lastBoxEmptyLabel (.box x1 y1 x2 y2 ls :: rest)
      = (lastBoxEmptyLabel rest).or (some ls.isEmpty) := by
  simp only [lastBoxEmptyLabel, boxesOf, List.filterMap_cons]
  cases hL : List.filterMap (fun sh =>
      match sh with
      | ShapeM.box x1 y1 x2 y2 ls => some (x1, y1, x2, y2, ls)
      | ShapeM.other _ => none) rest with
  | nil => simp [Option.or]
  | cons a t =>
      rw [List.getLast?_cons_cons]
      cases hg : (a :: t).getLast? with
      | none => simp at hg
      | some b => simp [Option.or]

theorem option_or_some_left (v : Bool) (b : Option Bool) :
    (some v).or b = some v := rfl

theorem option_or_assoc (a b c : Option Bool) :
    (a.or b).or c = a.or (b.or c) := by
  cases a <;> cases b <;> rfl

theorem annLoop_spec (width height : ℚ) (label_list : List String) :
    ∀ (shapes : List ShapeM) (bbs : List (List ℚ)) (lbs : List Int)
      (emp : Option Bool)
      (res : List (List ℚ) × List Int × Option Bool),
      annLoop width height label_list shapes bbs lbs emp = .ok res →
      res.1 = bbs ++ scaledRows width height shapes ∧
      res.2.1 = lbs ++ labelEntries label_list shapes ∧
      res.2.2 = (lastBoxEmptyLabel shapes).or emp := by
  intro shapes
  induction shapes with
  | nil =>
      intro bbs lbs emp res h
      simp only [annLoop, Except.ok.injEq] at h
      subst h
      simp [scaledRows, labelEntries, boxesOf, lastBoxEmptyLabel, Option.or]
  | cons sh rest ihs =>
      intro bbs lbs emp res h
      cases sh with
      | other n =>
          simp only [annLoop] at h
          have hr := ihs bbs lbs emp res h
          rw [lastBoxEmptyLabel_cons_other]
          simpa [scaledRows, labelEntries, boxesOf] using hr
      | box x1 y1 x2 y2 ls =>
          cases ls with
          | nil =>
              simp only [annLoop] at h
              obtain ⟨h1, h2, h3⟩ := ihs _ _ _ res h
              refine ⟨?_, ?_, ?_⟩
              · rw [h1]
                simp [scaledRows, boxesOf]
              · rw [h2]
                simp [labelEntries, boxesOf]
              · rw [h3, lastBoxEmptyLabel_cons_box, option_or_assoc,
                  option_or_some_left]
                rfl
          | cons l ltl =>
              cases hpi : pyIndex label_list l.name with
              | none =>
                  simp only [annLoop, hpi] at h
                  exact Except.noConfusion h
              | some i =>
                  simp only [annLoop, hpi] at h
                  obtain ⟨h1, h2, h3⟩ := ihs _ _ _ res h
                  refine ⟨?_, ?_, ?_⟩
                  · rw [h1]
                    simp [scaledRows, boxesOf]
                  · rw [h2]
                    simp [labelEntries, boxesOf, hpi]
                  · rw [h3, lastBoxEmptyLabel_cons_box, option_or_assoc,
                      option_or_some_left]
                    rfl

/-- Claim C9: for every dataset item whose box labels all resolve in
the label list (so the conversion returns), `get_annotation_mmdet_format`
returns one `bboxes` row per `Box` shape — the corners scaled by image
width and height — and one `labels` entry per `Box` with at least one
label, except in the single sentinel case (the item holds exactly one
`Box` and the last-visited `Box` has no labels), where it returns
`bboxes = [[0, 0, 0, 0]]` and `labels = [-1]`; non-`Box` shapes are
always ignored. -/
theorem C9_get_annotation_mmdet_format (item : DatasetItemM)
    (label_list : List String) (ann : AnnInfo)
    (h : get_annotation_mmdet_format item label_list = .ok ann) :
    (sentinelCase item.shapes = false →
      ann.bboxes = scaledRows item.width item.height item.shapes ∧
      ann.labels = labelEntries label_list item.shapes) ∧
    (sentinelCase item.shapes = true →
      ann.bboxes = [[0, 0, 0, 0]] ∧ ann.labels = [-1]) := by
  simp only [get_annotation_mmdet_format, bind, Except.bind] at h
  cases hl : annLoop item.width item.height label_list item.shapes
      [] [] none with
  | error e => simp only [hl] at h; exact Except.noConfusion h
  | ok res =>
  simp only [hl] at h
  obtain ⟨h1, h2, h3⟩ := annLoop_spec item.width item.height label_list
    item.shapes [] [] none res hl
  simp only [List.nil_append] at h1 h2
  have hcond : (res.1.length = 1 ∧ res.2.2.getD false = true)
      ↔ sentinelCase item.shapes = true := by
    rw [h1, h3]
    simp only [sentinelCase, scaledRows, List.length_map,
      Bool.and_eq_true, beq_iff_eq, lastBoxEmptyLabel]
    cases hg : (boxesOf item.shapes).getLast? with
    | none => simp [Option.or]
    | some b => simp [Option.or]
  by_cases hs : sentinelCase item.shapes = true
  · rw [if_pos (hcond.mpr hs)] at h
    simp only [Except.ok.injEq] at h
    subst h
    refine ⟨fun hfalse => ?_, fun _ => ⟨rfl, rfl⟩⟩
    rw [hs] at hfalse
    exact absurd hfalse (by decide)
  · have hs' : sentinelCase item.shapes = false := by
      simpa using hs
    rw [if_neg (fun hc => hs (hcond.mp hc))] at h
    simp only [Except.ok.injEq] at h
    subst h
    refine ⟨fun _ => ⟨h1, h2⟩, fun htrue => absurd htrue hs⟩

/-- Witness for C9: an item with two boxes (the second unlabelled) and
one ignored non-box shape. -/
theorem C9_get_annotation_mmdet_format_witness :
    ∃ ann, get_annotation_mmdet_format
        { width := 4, height := 3,
          shapes := [.box (1 / 2) (1 / 3) 1 (2 / 3) [⟨"cat", 1⟩],
                     .other 7,
                     .box 0 0 (1 / 4) (1 / 3) []] }
        ["dog", "cat"] = .ok ann ∧
      ann.bboxes = [[2, 1, 4, 2], [0, 0, 1, 1]] ∧
      ann.labels = [1] := by
  obtain ⟨hmain, _⟩ := C9_get_annotation_mmdet_format
      { width := 4, height := 3,
        shapes := [.box (1 / 2) (1 / 3) 1 (2 / 3) [⟨"cat", 1⟩],
                   .other 7,
                   .box 0 0 (1 / 4) (1 / 3) []] }
      ["dog", "cat"] _ rfl
  obtain ⟨hb, hlb⟩ := hmain (by decide)
  refine ⟨_, rfl, hb.trans ?_, hlb.trans (by decide)⟩
  simp only [scaledRows, boxesOf, List.filterMap_cons, List.map_cons,
    List.map_nil]
  norm_num

/-! ### `analyse` and `_get_confidence` -/

/-- One detection row produced by the detector for one class: corner
coordinates in pixels and the confidence score. -/
structure Detection where
  x1 : ℚ
  y1 : ℚ
  x2 : ℚ
  y2 : ℚ
  score : ℚ
  deriving DecidableEq, Repr

/-- The post-processing configurable parameters read by
`_get_confidence`. -/
structure PostProcessingParams where
  confidence_threshold : ℚ
  result_based_confidence_threshold : Bool
  deriving DecidableEq, Repr

/-- `_get_confidence`: the confidence threshold in effect — zero during
evaluation when the threshold is result-based, the configured value
otherwise. -/
def get_confidence (params : PostProcessingParams)
    (is_evaluation : Bool) : ℚ :=
  if is_evaluation then
    (if params.result_based_confidence_threshold then 0
     else params.confidence_threshold)
  else params.confidence_threshold

/-- `np.clip(x, 0, 1)`. -/
def clip01 (x : ℚ) : ℚ := min (max x 0) 1

/-- The per-detection body of the `analyse` conversion loop: normalize
the coordinates by image size, clip them to `[0, 1]`, drop the
detection when its score is below the threshold or when the clipped box
has a non-positive width or height, and otherwise build the `Box` with
its scored label. -/
def detToShape (labelName : String) (d : Detection) (width height t : ℚ) :
    Option ShapeM :=
  let probability := d.score
  let c0 := clip01 (d.x1 / width)
  let c1 := clip01 (d.y1 / height)
  let c2 := clip01 (d.x2 / width)
  let c3 := clip01 (d.y2 / height)
  if probability < t then none
  else if c3 - c1 ≤ 0 ∨ c2 - c0 ≤ 0 then none
  else some (.box c0 c1 c2 c3 [⟨labelName, probability⟩])

/-- The loop of `analyse` over `enumerate(output)`: `label_idx` indexes
the configured labels (`IndexError`, modelled as an error, when out of
range); the shapes of all classes are appended in order. -/
def shapesOfPredictionAux (labels : List String) (width height t : ℚ) :
    Nat → List (List Detection) → Except Unit (List ShapeM)
  | _, [] => .ok []
  | idx, dets :: rest =>
      match labels[idx]? with
      | none => .error ()
      | some name =>
          match shapesOfPredictionAux labels width height t (idx + 1) rest with
          | .ok tail =>
              .ok ((dets.filterMap (fun d => detToShape name d width height t))
                ++ tail)
          | .error e => .error e

/-- The `Box` shapes `analyse` appends to one dataset item, from the
detector output `output` for an image of the given size, with the
threshold returned by `_get_confidence`. -/
def shapesOfPrediction (labels : List String)
    (output : List (List Detection)) (width height : ℚ)
    (params : PostProcessingParams) (is_evaluation : Bool) :
    Except Unit (List ShapeM) :=
  shapesOfPredictionAux labels width height
    (get_confidence params is_evaluation) 0 output

theorem clip01_nonneg (x : ℚ) : 0 ≤ clip01 x := by
  simp only [clip01, le_min_iff]
  constructor
  · exact le_max_right x 0
  · norm_num

theorem clip01_le_one (x : ℚ) : clip01 x ≤ 1 := min_le_right _ _

theorem detToShape_invariant {labelName : String} {d : Detection}
    {width height t : ℚ} {sh : ShapeM}
    (h : detToShape labelName d width height t = some sh) :
    ∃ x1 y1 x2 y2 ls, sh = .box x1 y1 x2 y2 ls ∧
      0 ≤ x1 ∧ x1 ≤ 1 ∧ 0 ≤ y1 ∧ y1 ≤ 1 ∧ 0 ≤ x2 ∧ x2 ≤ 1 ∧
      0 ≤ y2 ∧ y2 ≤ 1 ∧ 0 < x2 - x1 ∧ 0 < y2 - y1 ∧
      ∀ l ∈ ls, t ≤ l.probability := by
  simp only [detToShape] at h
  by_cases hp : d.score < t
  · rw [if_pos hp] at h
    exact Option.noConfusion h
  · rw [if_neg hp] at h
    by_cases hg : clip01 (d.y2 / height) - clip01 (d.y1 / height) ≤ 0 ∨
        clip01 (d.x2 / width) - clip01 (d.x1 / width) ≤ 0
    · rw [if_pos hg] at h
      exact Option.noConfusion h
    · rw [if_neg hg] at h
      push_neg at hg
      obtain ⟨hgy, hgx⟩ := hg
      simp only [Option.some.injEq] at h
      refine ⟨_, _, _, _, _, h.symm, clip01_nonneg _, clip01_le_one _,
        clip01_nonneg _, clip01_le_one _, clip01_nonneg _, clip01_le_one _,
        clip01_nonneg _, clip01_le_one _, by linarith, by linarith, ?_⟩
      intro l hl
      simp only [List.mem_singleton] at hl
      subst hl
      simpa using not_lt.mp hp

theorem shapesOfPredictionAux_invariant (labels : List String)
    (width height t : ℚ) :
    ∀ (idx : Nat) (output : List (List Detection)) (shapes : List ShapeM),
      shapesOfPredictionAux labels width height t idx output = .ok shapes →
      ∀ sh ∈ shapes, ∃ x1 y1 x2 y2 ls, sh = .box x1 y1 x2 y2 ls ∧
        0 ≤ x1 ∧ x1 ≤ 1 ∧ 0 ≤ y1 ∧ y1 ≤ 1 ∧ 0 ≤ x2 ∧ x2 ≤ 1 ∧
        0 ≤ y2 ∧ y2 ≤ 1 ∧ 0 < x2 - x1 ∧ 0 < y2 - y1 ∧
        ∀ l ∈ ls, t ≤ l.probability := by
  intro idx output
  induction output generalizing idx with
  | nil =>
      intro shapes h sh hsh
      simp only [shapesOfPredictionAux, Except.ok.injEq] at h
      subst h
      cases hsh
  | cons dets rest iho =>
      intro shapes h sh hsh
      cases hn : labels[idx]? with
      | none =>
          simp only [shapesOfPredictionAux, hn] at h
          exact Except.noConfusion h
      | some name =>
          simp only [shapesOfPredictionAux, hn] at h
          cases ht : shapesOfPredictionAux labels width height t (idx + 1)
              rest with
          | error e => simp only [ht] at h; exact Except.noConfusion h
          | ok tail =>
          simp only [ht, Except.ok.injEq] at h
          subst h
          rcases List.mem_append.mp hsh with hmem | hmem
          · obtain ⟨d, _, hd⟩ := List.mem_filterMap.mp hmem
            exact detToShape_invariant hd
          · exact iho (idx + 1) tail ht sh hmem

/-- Claim C10: every `Box` that `analyse` appends to a dataset item has
all four coordinates in `[0, 1]`, strictly positive width and height,
and every attached scored label's probability at least the confidence
threshold in effect (`_get_confidence`); detections failing any of
these conditions are dropped rather than reported. -/
theorem C10_analyse_box_invariant (labels : List String)
    (output : List (List Detection)) (width height : ℚ)
    (params : PostProcessingParams) (is_evaluation : Bool)
    (shapes : List ShapeM)
    (h : shapesOfPrediction labels output width height params
      is_evaluation = .ok shapes) :
    ∀ sh ∈ shapes, ∃ x1 y1 x2 y2 ls, sh = .box x1 y1 x2 y2 ls ∧
      0 ≤ x1 ∧ x1 ≤ 1 ∧ 0 ≤ y1 ∧ y1 ≤ 1 ∧ 0 ≤ x2 ∧ x2 ≤ 1 ∧
      0 ≤ y2 ∧ y2 ≤ 1 ∧ 0 < x2 - x1 ∧ 0 < y2 - y1 ∧
      ∀ l ∈ ls, get_confidence params is_evaluation ≤ l.probability :=
  shapesOfPredictionAux_invariant labels width height
    (get_confidence params is_evaluation) 0 output shapes h

/-- Witness for C10: a two-class output where one detection passes and
the others are dropped for low confidence or empty area. -/
theorem C10_analyse_box_invariant_witness :
    ∃ shapes, shapesOfPrediction ["dog", "cat"]
        [[{ x1 := 2, y1 := 3, x2 := 8, y2 := 9, score := 9 / 10 },
          { x1 := 2, y1 := 3, x2 := 8, y2 := 9, score := 1 / 10 }],
         [{ x1 := 5, y1 := 5, x2 := 5, y2 := 9, score := 9 / 10 }]]
        10 10 { confidence_threshold := 1 / 2,
                result_based_confidence_threshold := true } false
      = .ok shapes ∧
      (∀ sh ∈ shapes, ∃ x1 y1 x2 y2 ls, sh = .box x1 y1 x2 y2 ls ∧
        0 ≤ x1 ∧ x1 ≤ 1 ∧ 0 ≤ y1 ∧ y1 ≤ 1 ∧ 0 ≤ x2 ∧ x2 ≤ 1 ∧
        0 ≤ y2 ∧ y2 ≤ 1 ∧ 0 < x2 - x1 ∧ 0 < y2 - y1 ∧
        ∀ l ∈ ls, (1 : ℚ) / 2 ≤ l.probability) := by
  cases hres : shapesOfPrediction ["dog", "cat"]
      [[{ x1 := 2, y1 := 3, x2 := 8, y2 := 9, score := 9 / 10 },
        { x1 := 2, y1 := 3, x2 := 8, y2 := 9, score := 1 / 10 }],
       [{ x1 := 5, y1 := 5, x2 := 5, y2 := 9, score := 9 / 10 }]]
      10 10 { confidence_threshold := 1 / 2,
              result_based_confidence_threshold := true } false with
  | error e =>
      exfalso
      revert hres
      norm_num [shapesOfPrediction, shapesOfPredictionAux, detToShape,
        get_confidence, clip01, List.filterMap_cons, List.filterMap_nil]
      exact fun hc => Except.noConfusion hc
  | ok shapes =>
      refine ⟨shapes, rfl, ?_⟩
      have hinv := C10_analyse_box_invariant ["dog", "cat"]
        [[{ x1 := 2, y1 := 3, x2 := 8, y2 := 9, score := 9 / 10 },
          { x1 := 2, y1 := 3, x2 := 8, y2 := 9, score := 1 / 10 }],
         [{ x1 := 5, y1 := 5, x2 := 5, y2 := 9, score := 9 / 10 }]]
        10 10 { confidence_threshold := 1 / 2,
                result_based_confidence_threshold := true } false shapes hres
      simpa [get_confidence] using hinv
